import Mathlib

/-!
Verification development for `flit/sdist.py` (sdist builder of the flit
packaging tool).

Modelling conventions:
* A Python `str` is modelled as `List Char` (`Str` below); Python compares
  and sorts strings lexicographically by code point, which coincides with
  the `LinearOrder` on `List Char`.
* Paths use the POSIX separator, so `os.sep = '/'` and
  `posixpath.join a b = a ++ "/" ++ b` for a relative `b`.
* `os.walk(dir, topdown=True)` over a directory tree is a preorder
  traversal; the code never mutates `dirnames`, so every directory is
  visited.  Relative paths are kept as lists of path components (the code
  splits such strings on `os.sep` and rejoins them, and directory names
  cannot contain the separator, so the two representations are in
  bijection).
* External collaborators (the VCS module, the filesystem, the environment)
  are inputs of the model: the tracked / untracked-or-deleted file lists,
  a `FileMeta` function describing `os.stat`/`gettarinfo` results, and the
  `SOURCE_DATE_EPOCH` string.
* `build` is modelled as a trace of file-system effects (`FsOp`) paired
  with its result, so statements about what happens before an error can
  be read off the trace.
-/

abbrev Str := List Char

/-- Whitespace for Python `str.strip()` (ASCII subset). -/
def pyIsSpace (c : Char) : Bool :=
  c = ' ' || c.val = 9 || c.val = 10 || c.val = 11 || c.val = 12 || c.val = 13

/-- Python `s.lstrip()`. -/
def py_lstrip (s : Str) : Str := s.dropWhile pyIsSpace

/-- Python `s.rstrip()`. -/
def py_rstrip (s : Str) : Str := (s.reverse.dropWhile pyIsSpace).reverse

/-- Python `s.strip()`. -/
def py_strip (s : Str) : Str := py_rstrip (py_lstrip s)

/-- Python `s.split(c, 1)`: the part before the first occurrence of `c`,
and the rest after it (`none` when `c` does not occur). -/
def split_first (c : Char) : Str → Str × Option Str
  | [] => ([], none)
  | x :: xs =>
    if x = c then ([], some xs)
    else
      let r := split_first c xs
      (x :: r.1, r.2)

/-- Python `s.replace(str(c), "")`: remove every occurrence of a character. -/
def remove_char (c : Char) (s : Str) : Str := s.filter (fun x => x ≠ c)

/-- Python `sub in s` for strings (contiguous substring test). -/
def hasSub (needle : Str) : Str → Bool
  | [] => needle.isEmpty
  | c :: cs => needle.isPrefixOf (c :: cs) || hasSub needle cs

/-- Python `sorted` on a list of strings (total order on `List Char` is
code-point lexicographic, as in Python). -/
def sortStr (l : List Str) : List Str := l.insertionSort (fun a b => a ≤ b)

/-- Join a list of path/name components with a separator character,
Python `sep.join(parts)`. -/
def joinSep (sep : Char) : List Str → Str
  | [] => []
  | [x] => x
  | x :: xs => x ++ sep :: joinSep sep xs

/-- `include_path` from `sdist.py`:
`not (p.startswith('dist' + os.sep) or (os.sep + '__pycache__' in p)
      or p.endswith('.pyc'))`. -/
def include_path (p : Str) : Bool :=
  !(("dist/".toList).isPrefixOf p || hasSub ("/__pycache__".toList) p
    || (".pyc".toList).isSuffixOf p)

/-- `_parse_req` from `sdist.py`: split off the environment marker at the
first `;`, then normalize a parenthesized version constraint. -/
def _parse_req (requires_dist : Str) : Str × Option Str :=
  let sp := split_first ';' requires_dist
  let name_version := sp.1
  let env_mark : Option Str :=
    match sp.2 with
    | some em => some (py_strip em)
    | none => none
  if name_version.contains '(' then
    let sp2 := split_first '(' name_version
    let name := py_strip sp2.1
    let version := py_strip (remove_char ')' (sp2.2.getD []))
    let version :=
      if version.any (fun c => c = '=' || c = '<' || c = '>') then version
      else "==".toList ++ version
    (name ++ version, env_mark)
  else (name_version, env_mark)

/-- Python `defaultdict(list)` append: `m[k].append(v)`, preserving key
insertion order. -/
def dAppend [DecidableEq K] (m : List (K × List V)) (k : K) (v : V) :
    List (K × List V) :=
  match m with
  | [] => [(k, [v])]
  | (k', vs) :: rest =>
    if k' = k then (k', vs ++ [v]) :: rest else (k', vs) :: dAppend rest k v

/-- Python `dict` lookup on an insertion-ordered association list. -/
def dLookup [DecidableEq K] (m : List (K × V)) (k : K) : Option V :=
  match m with
  | [] => none
  | (k', v) :: rest => if k' = k then some v else dLookup rest k

/-- Python `dict.pop(k, default)`, the removal part: drop the first
binding of `k`. -/
def dRemove [DecidableEq K] (m : List (K × V)) (k : K) : List (K × V) :=
  match m with
  | [] => []
  | (k', v) :: rest => if k' = k then rest else (k', v) :: dRemove rest k

/-- Value of a key in a `defaultdict(list)`-style association list. -/
def lookupList [DecidableEq K] (m : List (K × List V)) (k : K) : List V :=
  (dLookup m k).getD []

/-- The `'.none'` sentinel used by flit for "no extra". -/
def noneExtra : Str := ".none".toList

/-- Loop body of `convert_requires`:
`grouping[(extra, env_mark)].append(name_version)` for one raw
requirement. -/
def add_req (extra : Str) (g : List ((Str × Option Str) × List Str))
    (req : Str) : List ((Str × Option Str) × List Str) :=
  dAppend g (extra, (_parse_req req).2) (_parse_req req).1

/-- The `grouping` dict of `convert_requires` after both loops. -/
def group_reqs (reqs_by_extra : List (Str × List Str)) :
    List ((Str × Option Str) × List Str) :=
  reqs_by_extra.foldl (fun g p => p.2.foldl (add_req p.1) g) []

/-- The extras-map key of a non-base group: the `'.none'` sentinel
becomes the empty string, and a present marker is appended as
`':' + marker`. -/
def extra_key (k : Str × Option Str) : Str :=
  let extra := if k.1 = noneExtra then ([] : Str) else k.1
  match k.2 with
  | none => extra
  | some m => extra ++ ':' :: m

/-- `convert_requires` from `sdist.py`: regroup requirements by
`(extra, env_mark)`; the `('.none', None)` group becomes the base install
requirements and is removed from the extras mapping. -/
def convert_requires (reqs_by_extra : List (Str × List Str)) :
    List Str × List (Str × List Str) :=
  let grouping := group_reqs reqs_by_extra
  let install_reqs := lookupList grouping (noneExtra, none)
  let g2 := dRemove grouping (noneExtra, none)
  (install_reqs, g2.map (fun p => (extra_key p.1, p.2)))

/-! ### Package tree discovery (`auto_packages`) -/

mutual

/-- A directory tree: subdirectories (name, subtree) in listing order and
the names of the plain files directly inside. -/
inductive FsTree where
  | node (dirs : FsForest) (files : List Str)

/-- A listing of named subdirectories. -/
inductive FsForest where
  | nil
  | cons (name : Str) (t : FsTree) (rest : FsForest)

end

/-- One `os.walk` item, reduced to what `auto_packages` consumes: the
path of the directory relative to the walk root, as components (so `[]`
is the root itself, whose `os.path.relpath` is `'.'`), and the file names
directly inside it. -/
abbrev WEntry := List Str × List Str

mutual

/-- `os.walk(root, topdown=True)` with untouched `dirnames`: the directory
itself first, then each subdirectory's subtree in listing order. -/
def walkAux (pre : List Str) : FsTree → List WEntry
  | .node dirs files => (pre, files) :: walkForest pre dirs

/-- Walk every tree of a forest in order. -/
def walkForest (pre : List Str) : FsForest → List WEntry
  | .nil => []
  | .cons n t rest => walkAux (pre ++ [n]) t ++ walkForest pre rest

end

/-- Loop body of `find_nearest_pkg`: try ancestors `parts[:i]` for
`i = m, m-1, ..., 1`, falling back to the top-level package. -/
def fnpGo (pkg_name : Str) (subpkg : List (List Str)) (parts : List Str) :
    Nat → Str × Str
  | 0 => (pkg_name, joinSep '/' parts)
  | i + 1 =>
    if parts.take (i + 1) ∈ subpkg then
      (joinSep '.' (pkg_name :: parts.take (i + 1)),
       joinSep '/' (parts.drop (i + 1)))
    else fnpGo pkg_name subpkg parts i

/-- `find_nearest_pkg` from `auto_packages`: the deepest proper ancestor
of `parts` already recorded as a sub-package, or the top-level package.
Ancestor paths are kept as component lists (the source keeps them as
`'/'`-joined strings; directory names cannot contain `'/'`). -/
def find_nearest_pkg (pkg_name : Str) (subpkg : List (List Str))
    (parts : List Str) : Str × Str :=
  fnpGo pkg_name subpkg parts (parts.length - 1)

/-- Mutable traversal state of `auto_packages`. -/
structure DiscState where
  subpkg_paths : List (List Str)
  packages : List Str
  pkg_data : List (Str × List Str)

/-- Body of the `os.walk` loop in `auto_packages`, for one visited
directory. -/
def autoStep (pkg_name : Str) (st : DiscState) (e : WEntry) : DiscState :=
  if e.1.getLastD pkg_name = "__pycache__".toList then st
  else if e.1 = [] then st
  else if e.2.contains ("__init__.py".toList) then
    { st with
      subpkg_paths := st.subpkg_paths ++ [e.1],
      packages := st.packages ++ [joinSep '.' (pkg_name :: e.1)] }
  else
    let r := find_nearest_pkg pkg_name st.subpkg_paths e.1
    { st with pkg_data := dAppend st.pkg_data r.1 (r.2 ++ "/*".toList) }

/-- `auto_packages` from `sdist.py`: discover sub-packages and
package_data of the package directory whose basename is `pkg_name` and
whose tree is `t`. -/
def auto_packages (pkg_name : Str) (t : FsTree) :
    List Str × List (Str × List Str) :=
  let st0 : DiscState :=
    { subpkg_paths := [], packages := [pkg_name],
      pkg_data := [([], ["*".toList])] }
  let st := (walkAux [] t).foldl (autoStep pkg_name) st0
  (sortStr st.packages, st.pkg_data.map (fun p => (p.1, sortStr p.2)))

/-! ### Tar entries and the reproducibility stamp -/

/-- What `TarFile.gettarinfo` reads from the filesystem for one tracked
path, plus the regular-file content that `build` streams into the
archive. -/
structure FileMeta where
  mode : Nat
  mtime : Int
  size : Nat
  isReg : Bool
  linkname : Str
  uid : Nat
  gid : Nat
  uname : Str
  gname : Str
  content : Str
deriving DecidableEq

/-- One archive member as written: header metadata plus content. -/
structure TarEntry where
  name : Str
  size : Nat
  mode : Nat
  mtime : Int
  uid : Nat
  gid : Nat
  uname : Str
  gname : Str
  isReg : Bool
  linkname : Str
  content : Str
deriving DecidableEq

/-- Modelled from the spec: `flit.common.normalize_file_permissions` is
not under `src/`; per the spec the permission bits are normalized to one
of exactly two canonical values, `0o755` when the owner-executable bit is
set and `0o644` otherwise, keeping the file-type bits above the
permission bits. -/
def normalize_file_permissions (st_mode : Nat) : Nat :=
  (st_mode / 512) * 512 + (if st_mode / 64 % 2 = 1 then 493 else 420)

/-- `clean_tarinfo` from `sdist.py`: zero owner ids, blank owner names,
normalize permissions, and override `mtime` when one is given. -/
def clean_tarinfo (ti : TarEntry) (mtime : Option Int) : TarEntry :=
  { ti with
    uid := 0, gid := 0, uname := [], gname := [],
    mode := normalize_file_permissions ti.mode,
    mtime := match mtime with | some m => m | none => ti.mtime }

/-- `tf.gettarinfo(path, arcname)`: header fields from the filesystem
(stored size is the file size for regular files, `0` otherwise); no
content yet. -/
def gettarinfo (m : FileMeta) (arcname : Str) : TarEntry :=
  { name := arcname, size := if m.isReg then m.size else 0,
    mode := m.mode, mtime := m.mtime, uid := m.uid, gid := m.gid,
    uname := m.uname, gname := m.gname, isReg := m.isReg,
    linkname := m.linkname, content := [] }

/-! ### Build input (metadata, module, VCS and filesystem collaborators) -/

/-- Everything `SdistBuilder.build` reads: resolved metadata, the module
descriptor, the entry points and requirements from the ini file, the VCS
collaborator's answers, the filesystem, and the environment variable. -/
structure BuildInput where
  name : Str
  version : Str
  summary : Str
  author : Str
  author_email : Str
  home_page : Str
  requires_python : Str
  moduleIsPackage : Bool
  moduleName : Str
  moduleTree : FsTree
  entrypoints : List (Str × List (Str × Str))
  reqs_by_extra : List (Str × List Str)
  srcdir : Str
  untracked_deleted : List Str
  tracked : List Str
  fileMeta : Str → FileMeta
  dirExists : Str → Bool
  source_date_epoch : Str

/-- Byte length of the UTF-8 encoding of a string (`len` of the
`.encode('utf-8')` result). -/
def utf8Len (s : Str) : Nat :=
  s.foldl
    (fun n c =>
      n + (if c.val < 128 then 1 else if c.val < 2048 then 2
           else if c.val < 65536 then 3 else 4)) 0

/-- The apostrophe character (code point 39). -/
def ap : Char := Char.ofNat 39

/-- Python `repr` of a string, modelled for strings that contain no
quote, backslash or control characters (all strings rendered into
`setup.py` here): surround with single quotes. -/
def py_str_repr (s : Str) : Str := ap :: s ++ [ap]

/-- Join strings with a (multi-character) separator string. -/
def joinSepStr (sep : Str) : List Str → Str
  | [] => []
  | [x] => x
  | x :: xs => x ++ sep ++ joinSepStr sep xs

/-- `pprint.pformat` / `repr` of a list of strings, modelled without the
80-column line wrapping (a fixed deterministic rendering). -/
def pformat_str_list (xs : List Str) : Str :=
  "[".toList ++ joinSepStr (", ".toList) (xs.map py_str_repr) ++ "]".toList

/-- `pprint.pformat` of a dict from string to list of strings: keys are
sorted, as `pprint` sorts dict keys; the 80-column line wrapping is not
modelled (a fixed deterministic rendering). -/
def pformat_dict (m : List (Str × List Str)) : Str :=
  "\x7b".toList
    ++ joinSepStr (", ".toList)
        ((m.insertionSort (fun a b => a.1 ≤ b.1)).map
          (fun p => py_str_repr p.1 ++ ": ".toList ++ pformat_str_list p.2))
    ++ "\x7d".toList

/-- Sort of `group.items()` for entry points: Python sorts the
(name, value) tuples lexicographically. -/
def sortPairs (l : List (Str × Str)) : List (Str × Str) :=
  l.insertionSort (fun a b => a.1 < b.1 ∨ (a.1 = b.1 ∧ a.2 ≤ b.2))

/-- `prep_entry_points`: reformat dict-of-dicts into dict-of-lists of
`name = ep` lines, names sorted; a group with no entries creates no key
(the `defaultdict` is only written for existing entries). -/
def prep_entry_points (eps : List (Str × List (Str × Str))) :
    List (Str × List Str) :=
  (eps.filter (fun g => !g.2.isEmpty)).map
    (fun g => (g.1, (sortPairs g.2).map (fun ne => ne.1 ++ " = ".toList ++ ne.2)))

/-- Fixed head of the `SETUP` template (the part before `{before}`). -/
def SETUP_header : Str :=
  "#!/usr/bin/env python\n# setup.py generated by flit for tools that don".toList
    ++ ap :: "t yet use PEP 517\n\nfrom distutils.core import setup\n\n".toList

/-- `make_setup_py`: render the legacy installer script from metadata,
discovered packages, normalized requirements and entry points. -/
def make_setup_py (inp : BuildInput) : Str :=
  let cr := convert_requires inp.reqs_by_extra
  let eps := prep_entry_points inp.entrypoints
  let pkgPart : List Str × List Str :=
    if inp.moduleIsPackage then
      let pk := auto_packages inp.moduleName inp.moduleTree
      (["packages = \\\n".toList ++ pformat_str_list (sortStr pk.1) ++ "\n".toList,
        "package_data = \\\n".toList ++ pformat_dict pk.2 ++ "\n".toList],
       ["packages=packages,".toList, "package_data=package_data,".toList])
    else
      ([], ["py_modules=".toList ++ pformat_str_list [inp.moduleName] ++ ",".toList])
  let reqPart : List Str × List Str :=
    if cr.1 ≠ [] then
      (["install_requires = \\\n".toList ++ pformat_str_list cr.1 ++ "\n".toList],
       ["install_requires=install_requires,".toList])
    else ([], [])
  let extrasPart : List Str × List Str :=
    if cr.2 ≠ [] then
      (["extras_require = \\\n".toList ++ pformat_dict cr.2 ++ "\n".toList],
       ["extras_require=extras_require,".toList])
    else ([], [])
  let epPart : List Str × List Str :=
    if eps ≠ [] then
      (["entry_points = \\\n".toList ++ pformat_dict eps ++ "\n".toList],
       ["entry_points=entry_points,".toList])
    else ([], [])
  let rpPart : List Str :=
    if inp.requires_python ≠ [] then
      ["python_requires=".toList ++ py_str_repr inp.requires_python ++ ",".toList]
    else []
  let before := pkgPart.1 ++ reqPart.1 ++ extrasPart.1 ++ epPart.1
  let extra := pkgPart.2 ++ reqPart.2 ++ extrasPart.2 ++ epPart.2 ++ rpPart
  SETUP_header ++ joinSepStr ("\n".toList) before
    ++ "\nsetup(name=".toList ++ py_str_repr inp.name
    ++ ",\n      version=".toList ++ py_str_repr inp.version
    ++ ",\n      description=".toList ++ py_str_repr inp.summary
    ++ ",\n      author=".toList ++ py_str_repr inp.author
    ++ ",\n      author_email=".toList ++ py_str_repr inp.author_email
    ++ ",\n      url=".toList ++ py_str_repr inp.home_page
    ++ ",\n      ".toList ++ joinSepStr ("\n      ".toList) extra
    ++ "\n     )\n".toList

/-- The `PKG_INFO` template rendered with the metadata fields. -/
def pkg_info_content (inp : BuildInput) : Str :=
  "Metadata-Version: 1.1\nName: ".toList ++ inp.name
    ++ "\nVersion: ".toList ++ inp.version
    ++ "\nSummary: ".toList ++ inp.summary
    ++ "\nHome-page: ".toList ++ inp.home_page
    ++ "\nAuthor: ".toList ++ inp.author
    ++ "\nAuthor-email: ".toList ++ inp.author_email
    ++ "\n".toList

/-! ### `find_tracked_files` and `build` -/

/-- Errors `build` can raise in the modelled fragment. -/
inductive BuildErr where
  | vcs (msg : Str) (root : Str)
  | badEpoch (s : Str)
deriving DecidableEq

/-- The message of the untracked/deleted-files `VCSError`. -/
def vcs_untracked_msg : Str :=
  ("Untracked or deleted files in the source directory. "
    ++ "Commit, undo or ignore these files in your VCS.").toList

/-- `SdistBuilder.find_tracked_files`: raise if any untracked-or-deleted
file survives `include_path`, else the sorted filtered tracked list. -/
def find_tracked_files (inp : BuildInput) : Except BuildErr (List Str) :=
  if inp.untracked_deleted.filter include_path = [] then
    .ok (sortStr (inp.tracked.filter include_path))
  else .error (.vcs vcs_untracked_msg inp.srcdir)

/-- Digits of a decimal literal. -/
def digitsToNat? (s : Str) : Option Nat :=
  if s = [] then none
  else
    s.foldl
      (fun acc c =>
        match acc with
        | none => none
        | some n => if c.isDigit then some (n * 10 + (c.toNat - 48)) else none)
      (some 0)

/-- Python `int(s)` for a decimal string: optional surrounding
whitespace, optional sign, digits; `none` when malformed. -/
def py_int? (s : Str) : Option Int :=
  match py_strip s with
  | '-' :: rest => (digitsToNat? rest).map (fun n => -(n : Int))
  | '+' :: rest => (digitsToNat? rest).map (fun n => (n : Int))
  | t => (digitsToNat? t).map (fun n => (n : Int))

/-- Lines 230-231 of `sdist.py`: the build-wide mtime override is the
parsed `SOURCE_DATE_EPOCH` when that is non-empty (`int()` raising on a
malformed value), and `None` when it is absent or empty. -/
def parse_epoch (s : Str) : Except Str (Option Int) :=
  if s = [] then .ok none
  else
    match py_int? s with
    | some n => .ok (some n)
    | none => .error s

/-- Name of the directory all entries live under, `'{name}-{version}'`. -/
def tf_dir (inp : BuildInput) : Str := inp.name ++ '-' :: inp.version

/-- One tracked file turned into an archive entry: `gettarinfo`, then
`clean_tarinfo` with the build-wide mtime, then the content for regular
files. -/
def mk_file_entry (inp : BuildInput) (mt : Option Int) (relpath : Str) :
    TarEntry :=
  let m := inp.fileMeta relpath
  let ti := clean_tarinfo (gettarinfo m (tf_dir inp ++ '/' :: relpath)) mt
  if ti.isReg then { ti with content := m.content } else ti

/-- The synthesized `setup.py` entry: a fresh `TarInfo` keeps its
defaults (`mode 0o644`, `mtime 0`, zero ids, blank names), only `size`
is set. -/
def setup_py_entry (inp : BuildInput) : TarEntry :=
  let c := make_setup_py inp
  { name := tf_dir inp ++ "/setup.py".toList, size := utf8Len c, mode := 420,
    mtime := 0, uid := 0, gid := 0, uname := [], gname := [], isReg := true,
    linkname := [], content := c }

/-- The synthesized `PKG-INFO` entry, same `TarInfo` defaults. -/
def pkg_info_entry (inp : BuildInput) : TarEntry :=
  let c := pkg_info_content inp
  { name := tf_dir inp ++ "/PKG-INFO".toList, size := utf8Len c, mode := 420,
    mtime := 0, uid := 0, gid := 0, uname := [], gname := [], isReg := true,
    linkname := [], content := c }

/-- File-system effects of `build`, in program order.  `createTruncate`
is the `GzipFile(target, 'wb', mtime)` constructor: it opens the
destination for writing, creating or truncating it, and writes a gzip
header whose timestamp field is the `mtime` argument when that is not
`None` and the current wall-clock time (`time.time()`) otherwise;
`gzMtime` is the timestamp actually written.  `closeArchive` is the
`finally` block (it flushes the tar end-of-archive blocks and the gzip
trailer). -/
inductive FsOp where
  | mkdirParents (dir : Str)
  | createTruncate (path : Str) (gzMtime : Int)
  | addEntry (e : TarEntry)
  | closeArchive
deriving DecidableEq

/-- The timestamp the gzip header records: the `SOURCE_DATE_EPOCH`
override when one exists, else the wall clock at the moment the writer
is opened (Python `GzipFile` writes `time.time()` when `mtime=None`). -/
def gz_mtime (mt : Option Int) (now : Int) : Int :=
  match mt with
  | some n => n
  | none => now

/-- The destination directory: the argument, or `<srcdir>/dist`. -/
def target_dir_resolved (inp : BuildInput) (td : Option Str) : Str :=
  td.getD (inp.srcdir ++ "/dist".toList)

/-- The destination file `<target_dir>/<name>-<version>.tar.gz`. -/
def target_path (inp : BuildInput) (td : Option Str) : Str :=
  target_dir_resolved inp td ++ '/' :: tf_dir inp ++ ".tar.gz".toList

/-- Lines 226-227: create the destination directory when missing. -/
def dir_ops (inp : BuildInput) (td : Option Str) : List FsOp :=
  if inp.dirExists (target_dir_resolved inp td) then []
  else [FsOp.mkdirParents (target_dir_resolved inp td)]

/-- `SdistBuilder.build`: the trace of file-system effects in program
order, paired with the returned path or the raised error.  `now` is the
wall-clock time when the gzip writer is opened — an input of the model
because the gzip header records it when no `SOURCE_DATE_EPOCH` override
exists. -/
def build (inp : BuildInput) (td : Option Str) (now : Int) :
    List FsOp × Except BuildErr Str :=
  let ops0 := dir_ops inp td
  let target := target_path inp td
  match parse_epoch inp.source_date_epoch with
  | .error s => (ops0, .error (.badEpoch s))
  | .ok mt =>
    match find_tracked_files inp with
    | .error e => (ops0 ++ [FsOp.createTruncate target (gz_mtime mt now),
                    FsOp.closeArchive],
                   .error e)
    | .ok files_to_add =>
      let fileOps := files_to_add.map
        (fun rp => FsOp.addEntry (mk_file_entry inp mt rp))
      let setupOps :=
        if files_to_add.contains ("setup.py".toList) then []
        else [FsOp.addEntry (setup_py_entry inp)]
      (ops0 ++ FsOp.createTruncate target (gz_mtime mt now)
         :: (fileOps ++ setupOps
              ++ [FsOp.addEntry (pkg_info_entry inp), FsOp.closeArchive]),
       .ok target)

/-- The archive members of a build trace, in order. -/
def trace_entries (ops : List FsOp) : List TarEntry :=
  ops.filterMap (fun op => match op with | .addEntry e => some e | _ => none)

/-- The gzip-header timestamps of the destination files opened in a
trace. -/
def trace_gz_mtimes (ops : List FsOp) : List Int :=
  ops.filterMap
    (fun op => match op with | .createTruncate _ m => some m | _ => none)

/-- POSIX `Path.is_absolute`. -/
def path_is_absolute (p : Str) : Bool := p.head? = some '/'

/-- A walk entry that `auto_packages` records as a sub-package: not a
`__pycache__` directory, not the root, and containing the import marker
`__init__.py`. -/
abbrev isPkgEntry (pkg_name : Str) (e : WEntry) : Prop :=
  e.1.getLastD pkg_name ≠ "__pycache__".toList ∧ e.1 ≠ []
    ∧ "__init__.py".toList ∈ e.2

/-- Example tree `pkg/a/b/c` where only `a` has `__init__.py` and `c`
holds a data file three levels down. -/
def exTree8 : FsTree :=
  .node
    (.cons ("a".toList)
      (.node
        (.cons ("b".toList)
          (.node
            (.cons ("c".toList) (.node .nil ["data.txt".toList]) .nil)
            [])
          .nil)
        ["__init__.py".toList])
      .nil)
    []

/-- Example tree `pkg/__pycache__/sub/data.txt`: a subdirectory below a
bytecode-cache directory holding a plain file. -/
def exTree4 : FsTree :=
  .node
    (.cons ("__pycache__".toList)
      (.node
        (.cons ("sub".toList) (.node .nil ["data.txt".toList]) .nil)
        [])
      .nil)
    ["__init__.py".toList]

/-- Example tree `pkg/__pycache__/deep/__init__.py`: a directory with
the marker file below a bytecode-cache directory. -/
def exTree4b : FsTree :=
  .node
    (.cons ("__pycache__".toList)
      (.node
        (.cons ("deep".toList) (.node .nil ["__init__.py".toList]) .nil)
        [])
      .nil)
    []

/-- Example tree `pkg/__pycache__/__init__.py`: a directory named
`__pycache__` that itself contains the import marker. -/
def exTree10 : FsTree :=
  .node
    (.cons ("__pycache__".toList) (.node .nil ["__init__.py".toList]) .nil)
    ["__init__.py".toList]

/-- Example tree `pkg/a/b` where only `b` has `__init__.py` (the
intermediate `a` is not a package). -/
def exTree10w : FsTree :=
  .node
    (.cons ("a".toList)
      (.node
        (.cons ("b".toList) (.node .nil ["__init__.py".toList]) .nil)
        ["readme.txt".toList])
      .nil)
    []

/-- Example `stat` result for a regular file. -/
def exMeta : FileMeta :=
  { mode := 33188, mtime := 1000, size := 4, isReg := true, linkname := [],
    uid := 1000, gid := 1000, uname := "user".toList, gname := "user".toList,
    content := "abcd".toList }

/-- A small concrete build input: single-file module `foo.py`, clean
VCS state, no `SOURCE_DATE_EPOCH`. -/
def exInput : BuildInput :=
  { name := "foo".toList, version := "0.1".toList, summary := "Foo".toList,
    author := "A".toList, author_email := "a@example.com".toList,
    home_page := [], requires_python := [],
    moduleIsPackage := false, moduleName := "foo".toList,
    moduleTree := FsTree.node .nil [],
    entrypoints := [], reqs_by_extra := [],
    srcdir := ".".toList,
    untracked_deleted := [], tracked := ["foo.py".toList],
    fileMeta := fun _ => exMeta,
    dirExists := fun _ => true,
    source_date_epoch := [] }

/-- Decidable equality for `Except`, so that concrete build results can
be checked by `decide`. -/
instance exceptDecEq (ε α : Type) [DecidableEq ε] [DecidableEq α] :
    DecidableEq (Except ε α) := fun a b =>
  match a, b with
  | .error e1, .error e2 =>
    if h : e1 = e2 then isTrue (by rw [h])
    else isFalse (by intro hc; cases hc; exact h rfl)
  | .error _, .ok _ => isFalse (by intro hc; cases hc)
  | .ok _, .error _ => isFalse (by intro hc; cases hc)
  | .ok v1, .ok v2 =>
    if h : v1 = v2 then isTrue (by rw [h])
    else isFalse (by intro hc; cases hc; exact h rfl)

/-! ### Lemmas about the string helpers -/

theorem split_first_of_not_mem {c : Char} {s : Str} (h : c ∉ s) :
    split_first c s = (s, none) := by
  induction s with
  | nil => rfl
  | cons x xs ih =>
    simp only [List.mem_cons, not_or] at h
    simp [split_first, Ne.symm h.1, ih h.2]

theorem split_first_append {c : Char} {a : Str} (b : Str) (h : c ∉ a) :
    split_first c (a ++ c :: b) = (a, some b) := by
  induction a with
  | nil => simp [split_first]
  | cons x xs ih =>
    simp only [List.mem_cons, not_or] at h
    simp [split_first, Ne.symm h.1, ih h.2]

theorem py_rstrip_snoc_space (s : Str) :
    py_rstrip (s ++ [' ']) = py_rstrip s := by
  simp [py_rstrip, List.dropWhile_cons, pyIsSpace]

theorem py_strip_snoc_space (s : Str) :
    py_strip (s ++ [' ']) = py_strip s := by
  unfold py_strip py_lstrip
  rw [List.dropWhile_append]
  by_cases h : (List.dropWhile pyIsSpace s).isEmpty
  · rw [if_pos h]
    rw [List.isEmpty_iff] at h
    rw [h]
    simp [List.dropWhile_cons, pyIsSpace, py_rstrip]
  · rw [if_neg h]
    exact py_rstrip_snoc_space _

theorem remove_char_append_last {c : Char} {x : Str} (h : c ∉ x) :
    remove_char c (x ++ [c]) = x := by
  simp only [remove_char, List.filter_append]
  have h2 : List.filter (fun a => decide (a ≠ c)) [c] = [] := by simp
  rw [h2, List.append_nil]
  apply List.filter_eq_self.mpr
  intro a ha
  have hne : a ≠ c := by
    intro hac
    rw [hac] at ha
    exact h ha
  simpa using hne

/-- C6: for every requirement string of the form `Name (X)` where the
constraint `X` contains none of the comparison symbols `=`, `<`, `>`,
`_parse_req` produces `Name==X` with no environment marker: the
parentheses and surrounding whitespace are stripped, `==` is prefixed,
and name and constraint are concatenated with no separator. -/
theorem parse_req_bare_version (name x : Str)
    (hn1 : ';' ∉ name) (hn2 : '(' ∉ name) (hn3 : py_strip name = name)
    (hx1 : ';' ∉ x) (hx3 : ')' ∉ x)
    (hx4 : '=' ∉ x) (hx5 : '<' ∉ x) (hx6 : '>' ∉ x)
    (hx7 : py_strip x = x) :
    _parse_req (name ++ ' ' :: '(' :: (x ++ [')'])) =
      (name ++ '=' :: '=' :: x, none) := by
  have hsemi : (';' : Char) ∉ name ++ ' ' :: '(' :: (x ++ [')']) := by
    simp only [List.mem_append, List.mem_cons, List.mem_singleton, not_or]
    exact ⟨hn1, by decide, by decide, hx1, by decide⟩
  have hpar : ('(' : Char) ∈ name ++ ' ' :: '(' :: (x ++ [')']) := by
    simp
  have hsplit :
      split_first '(' (name ++ ' ' :: '(' :: (x ++ [')'])) =
        (name ++ [' '], some (x ++ [')'])) := by
    have e : name ++ ' ' :: '(' :: (x ++ [')'])
        = (name ++ [' ']) ++ '(' :: (x ++ [')']) := by
      simp
    rw [e]
    apply split_first_append
    simp only [List.mem_append, List.mem_singleton, not_or]
    exact ⟨hn2, by decide⟩
  have hc : (name ++ ' ' :: '(' :: (x ++ [')'])).contains '(' = true :=
    List.elem_eq_true_of_mem hpar
  have hstrip1 : py_strip (name ++ [' ']) = name := by
    rw [py_strip_snoc_space, hn3]
  have hrm : remove_char ')' (x ++ [')']) = x := remove_char_append_last hx3
  have hany : x.any (fun c => c = '=' || c = '<' || c = '>') = false := by
    rw [List.any_eq_false]
    intro a ha
    simp only [Bool.or_eq_true, decide_eq_true_eq, not_or]
    refine ⟨⟨?_, ?_⟩, ?_⟩
    · intro hc; rw [hc] at ha; exact hx4 ha
    · intro hc; rw [hc] at ha; exact hx5 ha
    · intro hc; rw [hc] at ha; exact hx6 ha
  have heq : "==".toList ++ x = '=' :: '=' :: x := rfl
  unfold _parse_req
  simp only [split_first_of_not_mem hsemi, hsplit, hc, if_true,
    Option.getD_some, hrm, hx7, hany, Bool.false_eq_true, if_false,
    hstrip1, heq]

/-- Witness for C6 at the concrete requirement `Foo (1.0)`. -/
theorem parse_req_bare_version_witness :
    _parse_req ("Foo (1.0)".toList) = ("Foo==1.0".toList, none) := by
  have h := parse_req_bare_version ("Foo".toList) ("1.0".toList)
      (by decide) (by decide) (by decide) (by decide) (by decide)
      (by decide) (by decide) (by decide) (by decide)
  have e1 : "Foo (1.0)".toList
      = "Foo".toList ++ ' ' :: '(' :: ("1.0".toList ++ [')']) := by decide
  have e2 : "Foo==1.0".toList
      = "Foo".toList ++ '=' :: '=' :: "1.0".toList := by decide
  rw [e1, e2]
  exact h

/-! ### Lemmas about the requirement grouping -/

theorem lookupList_cons [DecidableEq K] (k0 : K) (vs : List V)
    (rest : List (K × List V)) (k : K) :
    lookupList ((k0, vs) :: rest) k = if k0 = k then vs else lookupList rest k := by
  by_cases h : k0 = k <;> simp [lookupList, dLookup, h]

theorem dAppend_mem_self [DecidableEq K] (m : List (K × List V)) (k : K)
    (v : V) : v ∈ lookupList (dAppend m k v) k := by
  induction m with
  | nil => simp [dAppend, lookupList, dLookup]
  | cons hd rest ih =>
    obtain ⟨k0, vs⟩ := hd
    simp only [dAppend]
    by_cases h0 : k0 = k
    · rw [if_pos h0, lookupList_cons, if_pos h0]
      simp
    · rw [if_neg h0, lookupList_cons, if_neg h0]
      exact ih

theorem dAppend_mem_mono [DecidableEq K] {m : List (K × List V)} {k : K}
    {x : V} (k' : K) (v : V) (h : x ∈ lookupList m k) :
    x ∈ lookupList (dAppend m k' v) k := by
  induction m with
  | nil => simp [lookupList, dLookup] at h
  | cons hd rest ih =>
    obtain ⟨k0, vs⟩ := hd
    rw [lookupList_cons] at h
    simp only [dAppend]
    by_cases h0 : k0 = k'
    · rw [if_pos h0, lookupList_cons]
      by_cases h1 : k0 = k
      · rw [if_pos h1]
        rw [if_pos h1] at h
        exact List.mem_append_left _ h
      · rw [if_neg h1]
        rw [if_neg h1] at h
        exact h
    · rw [if_neg h0, lookupList_cons]
      by_cases h1 : k0 = k
      · rw [if_pos h1]
        rw [if_pos h1] at h
        exact h
      · rw [if_neg h1]
        rw [if_neg h1] at h
        exact ih h

theorem foldl_add_req_mono (extra : Str) (l : List Str)
    {g : List ((Str × Option Str) × List Str)} {k : Str × Option Str}
    {x : Str} (h : x ∈ lookupList g k) :
    x ∈ lookupList (l.foldl (add_req extra) g) k := by
  induction l generalizing g with
  | nil => exact h
  | cons r rs ih => exact ih (dAppend_mem_mono _ _ h)

theorem foldl_groups_mono (pairs : List (Str × List Str))
    {g : List ((Str × Option Str) × List Str)} {k : Str × Option Str}
    {x : Str} (h : x ∈ lookupList g k) :
    x ∈ lookupList (pairs.foldl (fun g p => p.2.foldl (add_req p.1) g) g) k := by
  induction pairs generalizing g with
  | nil => exact h
  | cons p ps ih => exact ih (foldl_add_req_mono _ _ h)

theorem foldl_add_req_mem (extra : Str) {l : List Str} {req : Str}
    (g : List ((Str × Option Str) × List Str)) (hreq : req ∈ l) :
    (_parse_req req).1 ∈
      lookupList (l.foldl (add_req extra) g) (extra, (_parse_req req).2) := by
  induction l generalizing g with
  | nil => cases hreq
  | cons r rs ih =>
    rcases List.mem_cons.mp hreq with h | h
    · subst h
      exact foldl_add_req_mono extra rs (dAppend_mem_self _ _ _)
    · exact ih _ h

theorem foldl_groups_mem {pairs : List (Str × List Str)}
    (g : List ((Str × Option Str) × List Str)) {extra : Str}
    {reqs : List Str} {req : Str} (hmem : (extra, reqs) ∈ pairs)
    (hreq : req ∈ reqs) :
    (_parse_req req).1 ∈
      lookupList (pairs.foldl (fun g p => p.2.foldl (add_req p.1) g) g)
        (extra, (_parse_req req).2) := by
  induction pairs generalizing g with
  | nil => cases hmem
  | cons p ps ih =>
    rcases List.mem_cons.mp hmem with h | h
    · rw [← h]
      exact foldl_groups_mono ps (foldl_add_req_mem extra _ hreq)
    · exact ih _ h

theorem dAppend_keys [DecidableEq K] (m : List (K × List V)) (k : K) (v : V) :
    (dAppend m k v).map Prod.fst =
      if k ∈ m.map Prod.fst then m.map Prod.fst
      else m.map Prod.fst ++ [k] := by
  induction m with
  | nil => simp [dAppend]
  | cons hd rest ih =>
    obtain ⟨k0, vs⟩ := hd
    simp only [dAppend]
    by_cases h0 : k0 = k
    · subst h0
      simp
    · rw [if_neg h0]
      simp only [List.map_cons, ih, List.mem_cons]
      by_cases h1 : k ∈ rest.map Prod.fst
      · rw [if_pos h1, if_pos (Or.inr h1)]
      · rw [if_neg h1, if_neg ?_]
        · simp
        · intro hor
          rcases hor with h2 | h2
          · exact h0 h2.symm
          · exact h1 h2

theorem nodup_keys_dAppend [DecidableEq K] {m : List (K × List V)} (k : K)
    (v : V) (h : (m.map Prod.fst).Nodup) :
    ((dAppend m k v).map Prod.fst).Nodup := by
  rw [dAppend_keys]
  by_cases h1 : k ∈ m.map Prod.fst
  · rw [if_pos h1]; exact h
  · rw [if_neg h1]
    rw [List.nodup_append]
    exact ⟨h, List.nodup_singleton _, by simpa [List.disjoint_singleton] using h1⟩

theorem nodup_keys_foldl_add_req (extra : Str) (l : List Str)
    {g : List ((Str × Option Str) × List Str)}
    (h : (g.map Prod.fst).Nodup) :
    (((l.foldl (add_req extra) g)).map Prod.fst).Nodup := by
  induction l generalizing g with
  | nil => exact h
  | cons r rs ih => exact ih (nodup_keys_dAppend _ _ h)

theorem nodup_keys_group_reqs (pairs : List (Str × List Str)) :
    ((group_reqs pairs).map Prod.fst).Nodup := by
  suffices h : ∀ g : List ((Str × Option Str) × List Str),
      (g.map Prod.fst).Nodup →
      ((pairs.foldl (fun g p => p.2.foldl (add_req p.1) g) g).map Prod.fst).Nodup by
    exact h [] (by simp)
  induction pairs with
  | nil => intro g hg; exact hg
  | cons p ps ih => intro g hg; exact ih _ (nodup_keys_foldl_add_req _ _ hg)

theorem keys_foldl_add_req (extra : Str) (l : List Str)
    {g : List ((Str × Option Str) × List Str)} {k : Str × Option Str}
    (h : k ∈ (l.foldl (add_req extra) g).map Prod.fst) :
    k ∈ g.map Prod.fst ∨ k.1 = extra := by
  induction l generalizing g with
  | nil => exact Or.inl h
  | cons r rs ih =>
    rcases ih h with h1 | h1
    · rw [add_req, dAppend_keys] at h1
      by_cases h2 : ((extra, (_parse_req r).2) : Str × Option Str) ∈ g.map Prod.fst
      · rw [if_pos h2] at h1; exact Or.inl h1
      · rw [if_neg h2] at h1
        rcases List.mem_append.mp h1 with h3 | h3
        · exact Or.inl h3
        · right
          rw [List.mem_singleton.mp h3]
    · exact Or.inr h1

theorem keys_foldl_groups {k : Str × Option Str} :
    ∀ (pairs : List (Str × List Str))
      (g : List ((Str × Option Str) × List Str)),
      k ∈ (pairs.foldl (fun g p => p.2.foldl (add_req p.1) g) g).map Prod.fst →
      k ∈ g.map Prod.fst ∨ k.1 ∈ pairs.map Prod.fst := by
  intro pairs
  induction pairs with
  | nil => intro g hg; exact Or.inl hg
  | cons p ps ih =>
    intro g hg
    rw [List.foldl_cons] at hg
    rcases ih (p.2.foldl (add_req p.1) g) hg with h1 | h1
    · rcases keys_foldl_add_req _ _ h1 with h2 | h2
      · exact Or.inl h2
      · right; rw [List.map_cons, List.mem_cons]; exact Or.inl h2
    · right; rw [List.map_cons, List.mem_cons]; exact Or.inr h1

theorem keys_group_reqs {pairs : List (Str × List Str)}
    {k : Str × Option Str} (h : k ∈ (group_reqs pairs).map Prod.fst) :
    k.1 ∈ pairs.map Prod.fst := by
  rcases keys_foldl_groups pairs [] h with h1 | h1
  · simp at h1
  · exact h1

theorem dRemove_keys_sub [DecidableEq K] {m : List (K × V)} {k k' : K}
    (h : k' ∈ (dRemove m k).map Prod.fst) : k' ∈ m.map Prod.fst := by
  induction m with
  | nil => simp [dRemove] at h
  | cons hd rest ih =>
    obtain ⟨k0, v⟩ := hd
    simp only [dRemove] at h
    by_cases h0 : k0 = k
    · rw [if_pos h0] at h
      exact List.mem_cons_of_mem _ h
    · rw [if_neg h0] at h
      rcases List.mem_cons.mp h with h1 | h1
      · rw [List.map_cons, List.mem_cons]; exact Or.inl h1
      · exact List.mem_cons_of_mem _ (ih h1)

theorem dRemove_not_mem_keys [DecidableEq K] {m : List (K × V)} {k : K}
    (h : (m.map Prod.fst).Nodup) : k ∉ (dRemove m k).map Prod.fst := by
  induction m with
  | nil => simp [dRemove]
  | cons hd rest ih =>
    obtain ⟨k0, v⟩ := hd
    rw [List.map_cons, List.nodup_cons] at h
    simp only [dRemove]
    by_cases h0 : k0 = k
    · rw [if_pos h0]
      rw [h0] at h
      exact h.1
    · rw [if_neg h0]
      intro hmem
      rcases List.mem_cons.mp hmem with h1 | h1
      · exact h0 h1.symm
      · exact ih h.2 h1

/-- C7: every requirement filed under the no-extra sentinel `'.none'`
that carries no environment marker lands, in normalized form, in the
returned base install-requirements list; and the `('.none', None)` group
is removed from the extras mapping, so (provided the input has no
literal empty-string extra) no extras key equal to the renamed sentinel
(the empty string) exists in the returned extras mapping. -/
theorem convert_requires_base_classification
    (input : List (Str × List Str)) (reqs : List Str) (req : Str)
    (hmem : (noneExtra, reqs) ∈ input) (hreq : req ∈ reqs)
    (hmark : (_parse_req req).2 = none)
    (hkey : ([] : Str) ∉ input.map Prod.fst) :
    (_parse_req req).1 ∈ (convert_requires input).1
      ∧ ([] : Str) ∉ (convert_requires input).2.map Prod.fst := by
  constructor
  · have h := @foldl_groups_mem input [] _ _ _ hmem hreq
    rw [hmark] at h
    exact h
  · intro hmem2
    have he2 : (convert_requires input).2
        = (dRemove (group_reqs input) (noneExtra, none)).map
            (fun p => (extra_key p.1, p.2)) := rfl
    rw [he2, List.map_map] at hmem2
    obtain ⟨p, hp, hpk⟩ := List.mem_map.mp hmem2
    obtain ⟨⟨e, em⟩, vs⟩ := p
    cases em with
    | some m => simp [extra_key] at hpk
    | none =>
      simp only [Function.comp_apply, extra_key] at hpk
      by_cases he : e = noneExtra
      · have hk : ((e, (none : Option Str)) : Str × Option Str) ∈
            (dRemove (group_reqs input) (noneExtra, none)).map Prod.fst :=
          List.mem_map_of_mem _ hp
        rw [he] at hk
        exact dRemove_not_mem_keys (nodup_keys_group_reqs input) hk
      · rw [if_neg he] at hpk
        have hin : ((e, (none : Option Str)) : Str × Option Str) ∈
            (group_reqs input).map Prod.fst :=
          dRemove_keys_sub (List.mem_map_of_mem _ hp)
        have h2 := keys_group_reqs hin
        rw [hpk] at h2
        exact hkey h2

/-- Witness for C7 at a concrete requirements mapping. -/
theorem convert_requires_base_classification_witness :
    (_parse_req ("numpy".toList)).1 ∈
        (convert_requires [(noneExtra, ["numpy".toList]),
          ("test".toList, ["pytest".toList])]).1
      ∧ ([] : Str) ∉ (convert_requires [(noneExtra, ["numpy".toList]),
          ("test".toList, ["pytest".toList])]).2.map Prod.fst :=
  convert_requires_base_classification
    [(noneExtra, ["numpy".toList]), ("test".toList, ["pytest".toList])]
    ["numpy".toList] ("numpy".toList)
    (by decide) (by decide) (by decide) (by decide)

/-! ### Lemmas about `auto_packages` -/

theorem autoStep_pycache {pn : Str} (st : DiscState) {e : WEntry}
    (h : e.1.getLastD pn = "__pycache__".toList) : autoStep pn st e = st := by
  rw [autoStep, if_pos h]

theorem autoStep_pkg {pn : Str} (st : DiscState) {e : WEntry}
    (h : isPkgEntry pn e) :
    autoStep pn st e =
      { st with
        subpkg_paths := st.subpkg_paths ++ [e.1],
        packages := st.packages ++ [joinSep '.' (pn :: e.1)] } := by
  obtain ⟨h1, h2, h3⟩ := h
  rw [autoStep, if_neg h1, if_neg h2, if_pos (List.elem_eq_true_of_mem h3)]

theorem autoStep_data {pn : Str} (st : DiscState) {e : WEntry}
    (h1 : e.1.getLastD pn ≠ "__pycache__".toList) (h2 : e.1 ≠ [])
    (h3 : "__init__.py".toList ∉ e.2) :
    autoStep pn st e =
      { st with
        pkg_data :=
          dAppend st.pkg_data (find_nearest_pkg pn st.subpkg_paths e.1).1
            ((find_nearest_pkg pn st.subpkg_paths e.1).2 ++ "/*".toList) } := by
  cases hC : List.contains e.2 ("__init__.py".toList) with
  | true => exact absurd (List.mem_of_elem_eq_true hC) h3
  | false => rw [autoStep, if_neg h1, if_neg h2, if_neg (by rw [hC]; simp)]

theorem autoStep_subpkg_of_not {pn : Str} (st : DiscState) {e : WEntry}
    (h : ¬ isPkgEntry pn e) :
    (autoStep pn st e).subpkg_paths = st.subpkg_paths
      ∧ (autoStep pn st e).packages = st.packages := by
  by_cases h1 : e.1.getLastD pn = "__pycache__".toList
  · rw [autoStep_pycache st h1]; exact ⟨rfl, rfl⟩
  by_cases h2 : e.1 = []
  · rw [autoStep, if_neg h1, if_pos h2]; exact ⟨rfl, rfl⟩
  have h3 : "__init__.py".toList ∉ e.2 := fun hin => h ⟨h1, h2, hin⟩
  rw [autoStep_data st h1 h2 h3]; exact ⟨rfl, rfl⟩

theorem autoStep_pkg_data_mono {pn : Str} (st : DiscState) (e : WEntry)
    {k : Str} {x : Str} (h : x ∈ lookupList st.pkg_data k) :
    x ∈ lookupList (autoStep pn st e).pkg_data k := by
  by_cases h1 : e.1.getLastD pn = "__pycache__".toList
  · rw [autoStep_pycache st h1]; exact h
  by_cases h2 : e.1 = []
  · rw [autoStep, if_neg h1, if_pos h2]; exact h
  by_cases h3 : "__init__.py".toList ∈ e.2
  · rw [autoStep_pkg st ⟨h1, h2, h3⟩]; exact h
  · rw [autoStep_data st h1 h2 h3]
    exact dAppend_mem_mono _ _ h

theorem foldl_autoStep_pkg_data_mono {pn : Str} (L : List WEntry)
    {st : DiscState} {k : Str} {x : Str}
    (h : x ∈ lookupList st.pkg_data k) :
    x ∈ lookupList ((L.foldl (autoStep pn) st).pkg_data) k := by
  induction L generalizing st with
  | nil => exact h
  | cons e L ih => exact ih (autoStep_pkg_data_mono _ _ h)

theorem foldl_autoStep_subpkg {pn : Str} (L : List WEntry) :
    ∀ st : DiscState,
      (L.foldl (autoStep pn) st).subpkg_paths =
        st.subpkg_paths
          ++ (L.filter (fun e => decide (isPkgEntry pn e))).map Prod.fst := by
  induction L with
  | nil => intro st; simp
  | cons e L ih =>
    intro st
    rw [List.foldl_cons, ih]
    by_cases h : isPkgEntry pn e
    · rw [autoStep_pkg st h]
      rw [List.filter_cons, if_pos (decide_eq_true h)]
      simp
    · rw [(autoStep_subpkg_of_not st h).1]
      rw [List.filter_cons,
        if_neg (fun hc => h (of_decide_eq_true hc))]

theorem foldl_autoStep_packages {pn : Str} (L : List WEntry) :
    ∀ st : DiscState,
      (L.foldl (autoStep pn) st).packages =
        st.packages
          ++ (L.filter (fun e => decide (isPkgEntry pn e))).map
              (fun e => joinSep '.' (pn :: e.1)) := by
  induction L with
  | nil => intro st; simp
  | cons e L ih =>
    intro st
    rw [List.foldl_cons, ih]
    by_cases h : isPkgEntry pn e
    · rw [autoStep_pkg st h]
      rw [List.filter_cons, if_pos (decide_eq_true h)]
      simp
    · rw [(autoStep_subpkg_of_not st h).2]
      rw [List.filter_cons,
        if_neg (fun hc => h (of_decide_eq_true hc))]

theorem fnpGo_eq_of_mem (pn : Str) (S : List (List Str)) (parts : List Str)
    (i : Nat) (hge : 1 ≤ i) (hmem : parts.take i ∈ S) :
    ∀ m, i ≤ m → (∀ j, i < j → j ≤ m → parts.take j ∉ S) →
      fnpGo pn S parts m =
        (joinSep '.' (pn :: parts.take i), joinSep '/' (parts.drop i)) := by
  intro m
  induction m with
  | zero => intro h0 _; omega
  | succ m ih =>
    intro him habove
    by_cases hcase : i = m + 1
    · rw [fnpGo, ← hcase, if_pos hmem]
    · have hnm : parts.take (m + 1) ∉ S :=
        habove (m + 1) (by omega) (le_refl _)
      rw [fnpGo, if_neg hnm]
      exact ih (by omega) (fun j hj1 hj2 => habove j hj1 (by omega))

theorem fnpGo_root (pn : Str) (S : List (List Str)) (parts : List Str) :
    ∀ m, (∀ j, 1 ≤ j → j ≤ m → parts.take j ∉ S) →
      fnpGo pn S parts m = (pn, joinSep '/' parts) := by
  intro m
  induction m with
  | zero => intro _; rfl
  | succ m ih =>
    intro h
    rw [fnpGo, if_neg (h (m + 1) (by omega) (le_refl _))]
    exact ih (fun j h1 h2 => h j h1 (by omega))

theorem find_nearest_pkg_eq (pn : Str) (S : List (List Str))
    (parts : List Str) (i : Nat) (h1 : 1 ≤ i) (h2 : i < parts.length)
    (hmem : parts.take i ∈ S)
    (habove : ∀ j, i < j → j < parts.length → parts.take j ∉ S) :
    find_nearest_pkg pn S parts =
      (joinSep '.' (pn :: parts.take i), joinSep '/' (parts.drop i)) := by
  unfold find_nearest_pkg
  exact fnpGo_eq_of_mem pn S parts i h1 hmem (parts.length - 1) (by omega)
    (fun j hj1 hj2 => habove j hj1 (by omega))

theorem find_nearest_pkg_root (pn : Str) (S : List (List Str))
    (parts : List Str)
    (h : ∀ j, 1 ≤ j → j < parts.length → parts.take j ∉ S) :
    find_nearest_pkg pn S parts = (pn, joinSep '/' parts) := by
  unfold find_nearest_pkg
  exact fnpGo_root pn S parts (parts.length - 1)
    (fun j h1 h2 => h j h1 (by omega))

theorem fnpGo_cases_nearest (pn : Str) (S : List (List Str))
    (parts : List Str) :
    ∀ m, ((∀ j, 1 ≤ j → j ≤ m → parts.take j ∉ S)
          ∧ fnpGo pn S parts m = (pn, joinSep '/' parts))
      ∨ ∃ i, 1 ≤ i ∧ i ≤ m ∧ parts.take i ∈ S
          ∧ (∀ j, i < j → j ≤ m → parts.take j ∉ S)
          ∧ fnpGo pn S parts m =
              (joinSep '.' (pn :: parts.take i), joinSep '/' (parts.drop i)) := by
  intro m
  induction m with
  | zero =>
    exact Or.inl ⟨fun j h1 h2 => absurd h2 (by omega), rfl⟩
  | succ m ih =>
    by_cases hmem : parts.take (m + 1) ∈ S
    · right
      refine ⟨m + 1, by omega, le_refl _, hmem, ?_, by rw [fnpGo, if_pos hmem]⟩
      intro j hj1 hj2
      exact absurd hj2 (by omega)
    · rw [fnpGo, if_neg hmem]
      rcases ih with ⟨h1, h2⟩ | ⟨i, hi1, hi2, hi3, hi4, hi5⟩
      · left
        refine ⟨?_, h2⟩
        intro j hj1 hj2
        by_cases hj : j = m + 1
        · rw [hj]; exact hmem
        · exact h1 j hj1 (by omega)
      · right
        refine ⟨i, hi1, by omega, hi3, ?_, hi5⟩
        intro j hj1 hj2
        by_cases hj : j = m + 1
        · rw [hj]; exact hmem
        · exact hi4 j hj1 (by omega)

/-! ### Lemmas about the walk order -/

mutual

theorem walkAux_isPre (t : FsTree) (pre r fs : List Str)
    (h : (r, fs) ∈ walkAux pre t) : pre <+: r := by
  cases t with
  | node dirs files =>
    rw [walkAux] at h
    rcases List.mem_cons.mp h with h1 | h1
    · rw [Prod.mk.injEq] at h1
      rw [← h1.1]
    · exact (walkForest_isPre dirs pre r fs h1).1

theorem walkForest_isPre (ds : FsForest) (pre r fs : List Str)
    (h : (r, fs) ∈ walkForest pre ds) :
    pre <+: r ∧ pre.length < r.length := by
  cases ds with
  | nil => rw [walkForest] at h; cases h
  | cons n t rest =>
    rw [walkForest] at h
    rcases List.mem_append.mp h with h1 | h1
    · have h2 := walkAux_isPre t (pre ++ [n]) r fs h1
      constructor
      · exact (List.prefix_append pre [n]).trans h2
      · have h3 := h2.length_le
        rw [List.length_append, List.length_singleton] at h3
        omega
    · exact walkForest_isPre rest pre r fs h1

end

mutual

theorem walkAux_anc_before (t : FsTree) (pre r fs : List Str) (i : Nat)
    (h : (r, fs) ∈ walkAux pre t) (hi1 : pre.length ≤ i) (hi2 : i < r.length) :
    ∃ fs' L₁ L₂, walkAux pre t = L₁ ++ L₂
      ∧ (r.take i, fs') ∈ L₁ ∧ (r, fs) ∈ L₂ := by
  cases t with
  | node dirs files =>
    rw [walkAux] at h ⊢
    rcases List.mem_cons.mp h with h1 | h1
    · rw [Prod.mk.injEq] at h1
      rw [h1.1] at hi2
      omega
    · by_cases hcase : i = pre.length
      · subst hcase
        have hp := (walkForest_isPre dirs pre r fs h1).1
        have htake : r.take pre.length = pre :=
          (List.prefix_iff_eq_take.mp hp).symm
        exact ⟨files, [(pre, files)], walkForest pre dirs, rfl,
          by rw [htake]; exact List.mem_singleton_self _, h1⟩
      · have hi1' : pre.length < i := by omega
        obtain ⟨fs', L₁, L₂, heq, hm1, hm2⟩ :=
          walkForest_anc_before dirs pre r fs i h1 hi1' hi2
        exact ⟨fs', (pre, files) :: L₁, L₂,
          by rw [heq, List.cons_append], List.mem_cons_of_mem _ hm1, hm2⟩

theorem walkForest_anc_before (ds : FsForest) (pre r fs : List Str) (i : Nat)
    (h : (r, fs) ∈ walkForest pre ds) (hi1 : pre.length < i)
    (hi2 : i < r.length) :
    ∃ fs' L₁ L₂, walkForest pre ds = L₁ ++ L₂
      ∧ (r.take i, fs') ∈ L₁ ∧ (r, fs) ∈ L₂ := by
  cases ds with
  | nil => rw [walkForest] at h; cases h
  | cons n t rest =>
    rw [walkForest] at h ⊢
    rcases List.mem_append.mp h with h1 | h1
    · obtain ⟨fs', L₁, L₂, heq, hm1, hm2⟩ :=
        walkAux_anc_before t (pre ++ [n]) r fs i h1
          (by rw [List.length_append, List.length_singleton]; omega) hi2
      exact ⟨fs', L₁, L₂ ++ walkForest pre rest,
        by rw [heq, List.append_assoc], hm1, List.mem_append_left _ hm2⟩
    · obtain ⟨fs', L₁, L₂, heq, hm1, hm2⟩ :=
        walkForest_anc_before rest pre r fs i h1 hi1 hi2
      exact ⟨fs', walkAux (pre ++ [n]) t ++ L₁, L₂,
        by rw [heq, List.append_assoc], List.mem_append_right _ hm1, hm2⟩

end

theorem pair_eq_of_nodup_keys {α β : Type} {l : List (α × β)}
    (h : (l.map Prod.fst).Nodup) {a : α} {b c : β}
    (h1 : (a, b) ∈ l) (h2 : (a, c) ∈ l) : b = c := by
  induction l with
  | nil => cases h1
  | cons p rest ih =>
    rw [List.map_cons, List.nodup_cons] at h
    rcases List.mem_cons.mp h1 with e1 | m1
    · rcases List.mem_cons.mp h2 with e2 | m2
      · have e3 := e1.trans e2.symm
        rw [Prod.mk.injEq] at e3
        exact e3.2
      · exfalso
        apply h.1
        rw [← e1]
        exact List.mem_map.mpr ⟨(a, c), m2, rfl⟩
    · rcases List.mem_cons.mp h2 with e2 | m2
      · exfalso
        apply h.1
        rw [← e2]
        exact List.mem_map.mpr ⟨(a, b), m1, rfl⟩
      · exact ih h.2 m1 m2

theorem lookupList_mem_binding [DecidableEq K] {m : List (K × List V)}
    {k : K} {x : V} (h : x ∈ lookupList m k) :
    ∃ vs, (k, vs) ∈ m ∧ x ∈ vs := by
  induction m with
  | nil => simp [lookupList, dLookup] at h
  | cons p rest ih =>
    obtain ⟨k0, vs⟩ := p
    rw [lookupList_cons] at h
    by_cases h0 : k0 = k
    · rw [if_pos h0] at h
      subst h0
      exact ⟨vs, List.mem_cons_self _ _, h⟩
    · rw [if_neg h0] at h
      obtain ⟨vs', hm, hx⟩ := ih h
      exact ⟨vs', List.mem_cons_of_mem _ hm, hx⟩

theorem foldl_autoStep_data (pn : Str) (e : WEntry) (i : Nat)
    (hbase : e.1.getLastD pn ≠ "__pycache__".toList)
    (hne : e.1 ≠ [])
    (hnoinit : "__init__.py".toList ∉ e.2)
    (hi1 : 1 ≤ i) (hi2 : i < e.1.length) :
    ∀ (L₁ L₂ : List WEntry) (st : DiscState),
      e.1.take i ∈ st.subpkg_paths
          ++ (L₁.filter (fun e => decide (isPkgEntry pn e))).map Prod.fst →
      (∀ j, i < j → j < e.1.length →
        e.1.take j ∉ st.subpkg_paths
          ++ (L₁.filter (fun e => decide (isPkgEntry pn e))).map Prod.fst) →
      (joinSep '/' (e.1.drop i) ++ "/*".toList) ∈
        lookupList (((L₁ ++ e :: L₂).foldl (autoStep pn) st).pkg_data)
          (joinSep '.' (pn :: e.1.take i)) := by
  intro L₁
  induction L₁ with
  | nil =>
    intro L₂ st hmem habove
    simp only [List.filter_nil, List.map_nil, List.append_nil] at hmem habove
    rw [List.nil_append, List.foldl_cons]
    have hk : find_nearest_pkg pn st.subpkg_paths e.1
        = (joinSep '.' (pn :: e.1.take i), joinSep '/' (e.1.drop i)) :=
      find_nearest_pkg_eq pn st.subpkg_paths e.1 i hi1 hi2 hmem habove
    rw [autoStep_data st hbase hne hnoinit]
    apply foldl_autoStep_pkg_data_mono
    rw [hk]
    exact dAppend_mem_self _ _ _
  | cons a L₁ ih =>
    intro L₂ st hmem habove
    rw [List.cons_append, List.foldl_cons]
    have hS : (autoStep pn st a).subpkg_paths
          ++ ((L₁.filter (fun e => decide (isPkgEntry pn e))).map Prod.fst)
        = st.subpkg_paths
          ++ (((a :: L₁).filter (fun e => decide (isPkgEntry pn e))).map
                Prod.fst) := by
      by_cases hp : isPkgEntry pn a
      · rw [autoStep_pkg st hp]
        rw [List.filter_cons, if_pos (decide_eq_true hp), List.map_cons]
        simp [List.append_assoc]
      · rw [(autoStep_subpkg_of_not st hp).1, List.filter_cons,
          if_neg (fun hc => hp (of_decide_eq_true hc))]
    apply ih L₂ (autoStep pn st a)
    · rw [hS]; exact hmem
    · intro j h1 h2
      rw [hS]
      exact habove j h1 h2

theorem joinSep_cons_ne (sep : Char) (x : Str) (l : List Str) (h : l ≠ []) :
    joinSep sep (x :: l) = x ++ sep :: joinSep sep l := by
  cases l with
  | nil => exact absurd rfl h
  | cons y ys => rfl

theorem append_cons_ne_self (a : Str) (c : Char) (b : Str) : a ++ c :: b ≠ a := by
  intro h
  have := congrArg List.length h
  simp at this

/-- C8: in any directory tree (with distinct sibling names, so walk paths
are unique), a directory that directly contains no import marker and lies
strictly more than one level below its nearest sub-package boundary
`rel.take i` (the deepest proper ancestor that is a package and not a
`__pycache__` directory) has its files attributed to that nearest
boundary, as the glob `<intermediate segments>/*` spanning the
intermediate directories, and not to the root package. -/
theorem auto_packages_nearest_ancestor
    (pn : Str) (t : FsTree) (rel files : List Str) (i : Nat)
    (hmem : (rel, files) ∈ walkAux [] t)
    (hnodup : ((walkAux [] t).map Prod.fst).Nodup)
    (hbase : rel.getLastD pn ≠ "__pycache__".toList)
    (hnoinit : "__init__.py".toList ∉ files)
    (hi1 : 1 ≤ i) (hi2 : i + 1 < rel.length)
    (hanc : ∃ fs', (rel.take i, fs') ∈ walkAux [] t
        ∧ "__init__.py".toList ∈ fs'
        ∧ (rel.take i).getLastD pn ≠ "__pycache__".toList)
    (hdeep : ∀ j, i < j → j < rel.length →
        ∀ e ∈ walkAux [] t, e.1 = rel.take j →
          "__init__.py".toList ∉ e.2
            ∨ e.1.getLastD pn = "__pycache__".toList) :
    (∃ pats, (joinSep '.' (pn :: rel.take i), pats) ∈ (auto_packages pn t).2
        ∧ (joinSep '/' (rel.drop i) ++ "/*".toList) ∈ pats)
      ∧ joinSep '.' (pn :: rel.take i) ≠ pn := by
  have hne : rel ≠ [] := by
    intro h
    rw [h] at hi2
    simp at hi2
  have htk : rel.take i ≠ [] := by
    intro h
    have hlen := congrArg List.length h
    rw [List.length_take, List.length_nil] at hlen
    rcases Nat.min_eq_zero_iff.mp hlen with h0 | h0
    · omega
    · omega
  obtain ⟨fs', hancmem, hancinit, hancbase⟩ := hanc
  obtain ⟨fs'', L₁, L₂, heq, hm1, hm2⟩ :=
    walkAux_anc_before t [] rel files i hmem (by simp) (by omega)
  have hfs : fs'' = fs' := by
    apply pair_eq_of_nodup_keys hnodup ?_ hancmem
    rw [heq]
    exact List.mem_append_left _ hm1
  rw [hfs] at hm1
  obtain ⟨L₂a, L₂b, hsplit⟩ := List.append_of_mem hm2
  have hwalk : walkAux [] t = (L₁ ++ L₂a) ++ (rel, files) :: L₂b := by
    rw [heq, hsplit, List.append_assoc]
  have hmemS : rel.take i ∈
      (DiscState.mk [] [pn] [([], ["*".toList])]).subpkg_paths
        ++ (((L₁ ++ L₂a).filter
              (fun e => decide (isPkgEntry pn e))).map Prod.fst) := by
    apply List.mem_append_right
    apply List.mem_map.mpr
    refine ⟨(rel.take i, fs'), ?_, rfl⟩
    rw [List.mem_filter]
    refine ⟨List.mem_append_left _ hm1, decide_eq_true ⟨hancbase, htk, hancinit⟩⟩
  have haboveS : ∀ j, i < j → j < rel.length →
      rel.take j ∉
        (DiscState.mk [] [pn] [([], ["*".toList])]).subpkg_paths
          ++ (((L₁ ++ L₂a).filter
                (fun e => decide (isPkgEntry pn e))).map Prod.fst) := by
    intro j hj1 hj2 hin
    rw [List.nil_append] at hin
    obtain ⟨e', he'mem, he'fst⟩ := List.mem_map.mp hin
    rw [List.mem_filter] at he'mem
    have hpkg := of_decide_eq_true he'mem.2
    have he'walk : e' ∈ walkAux [] t := by
      rw [hwalk]
      exact List.mem_append_left _ he'mem.1
    rcases hdeep j hj1 hj2 e' he'walk he'fst with hno | hpy
    · exact hno hpkg.2.2
    · exact hpkg.1 hpy
  have hdata := foldl_autoStep_data pn (rel, files) i hbase hne hnoinit hi1
    (by show i < rel.length; omega) (L₁ ++ L₂a) L₂b
    (DiscState.mk [] [pn] [([], ["*".toList])]) hmemS haboveS
  rw [← hwalk] at hdata
  obtain ⟨vs, hbind, hx⟩ := lookupList_mem_binding hdata
  constructor
  · refine ⟨sortStr vs, ?_, ?_⟩
    · show (joinSep '.' (pn :: rel.take i), sortStr vs) ∈
        (((walkAux [] t).foldl (autoStep pn)
            (DiscState.mk [] [pn] [([], ["*".toList])])).pkg_data).map
          (fun p => (p.1, sortStr p.2))
      exact List.mem_map.mpr ⟨(joinSep '.' (pn :: rel.take i), vs), hbind, rfl⟩
    · unfold sortStr
      exact (List.mem_insertionSort _).mpr hx
  · cases htk' : rel.take i with
    | nil => exact absurd htk' htk
    | cons y ys =>
      rw [joinSep_cons_ne '.' pn (y :: ys) (by simp)]
      exact append_cons_ne_self pn '.' _

/-- Witness for C8 on `exTree8`: the file pattern of the directory
`a/b/c` is attributed to `pkg.a` as the multi-segment glob `b/c/*`. -/
theorem auto_packages_nearest_ancestor_witness :
    (∃ pats,
        (joinSep '.'
            ("pkg".toList :: (["a".toList, "b".toList, "c".toList]).take 1),
          pats) ∈ (auto_packages ("pkg".toList) exTree8).2
          ∧ (joinSep '/' ((["a".toList, "b".toList, "c".toList]).drop 1)
              ++ "/*".toList) ∈ pats)
      ∧ joinSep '.'
          ("pkg".toList :: (["a".toList, "b".toList, "c".toList]).take 1)
          ≠ "pkg".toList :=
  auto_packages_nearest_ancestor ("pkg".toList) exTree8
    ["a".toList, "b".toList, "c".toList] ["data.txt".toList] 1
    (by decide) (by decide) (by decide) (by decide) (by decide) (by decide)
    ⟨["__init__.py".toList], by decide, by decide, by decide⟩
    (by
      intro j hj1 hj2
      have hj : j = 2 := by
        simp only [List.length_cons, List.length_nil] at hj2
        omega
      subst hj
      decide)

/-- C10 (amended): every directory other than one named `__pycache__`
that contains the import-marker file is registered as a sub-package with
the dotted name formed from all of its path components under the root,
even when intermediate ancestor directories lack the marker; and the
attribution of a non-package directory goes to the nearest (deepest)
proper ancestor boundary recorded in the traversal state — no strictly
deeper proper ancestor is recorded — or to the root package exactly when
no proper ancestor is recorded at all; never downward to a deeper
sub-package. -/
theorem auto_packages_registration_upward (pn : Str) (t : FsTree) :
    (∀ rel files, (rel, files) ∈ walkAux [] t → rel ≠ [] →
        rel.getLastD pn ≠ "__pycache__".toList →
        "__init__.py".toList ∈ files →
        joinSep '.' (pn :: rel) ∈ (auto_packages pn t).1)
      ∧ (∀ (S : List (List Str)) (parts : List Str), parts ≠ [] →
          ((∀ j, 1 ≤ j → j < parts.length → parts.take j ∉ S)
              ∧ find_nearest_pkg pn S parts = (pn, joinSep '/' parts))
            ∨ ∃ i, 1 ≤ i ∧ i < parts.length ∧ parts.take i ∈ S
                ∧ (∀ j, i < j → j < parts.length → parts.take j ∉ S)
                ∧ find_nearest_pkg pn S parts =
                    (joinSep '.' (pn :: parts.take i),
                     joinSep '/' (parts.drop i))) := by
  constructor
  · intro rel files hmem hne hbase hinit
    show joinSep '.' (pn :: rel) ∈ sortStr
      (((walkAux [] t).foldl (autoStep pn)
          (DiscState.mk [] [pn] [([], ["*".toList])])).packages)
    unfold sortStr
    apply (List.mem_insertionSort _).mpr
    rw [foldl_autoStep_packages]
    apply List.mem_append_right
    apply List.mem_map.mpr
    exact ⟨(rel, files),
      List.mem_filter.mpr ⟨hmem, decide_eq_true ⟨hbase, hne, hinit⟩⟩, rfl⟩
  · intro S parts hne
    have hlen : 1 ≤ parts.length := List.length_pos.mpr hne
    rcases fnpGo_cases_nearest pn S parts (parts.length - 1) with
      ⟨h1, h2⟩ | ⟨i, hi1, hi2, hi3, hi4, hi5⟩
    · exact Or.inl ⟨fun j hj1 hj2 => h1 j hj1 (by omega), h2⟩
    · exact Or.inr ⟨i, hi1, by omega, hi3,
        fun j hj1 hj2 => hi4 j hj1 (by omega), hi5⟩

/-- Witness for C10 on `exTree10w`: `b` below the non-package directory
`a` is registered as `pkg.a.b`. -/
theorem auto_packages_registration_upward_witness :
    joinSep '.' ("pkg".toList :: ["a".toList, "b".toList]) ∈
      (auto_packages ("pkg".toList) exTree10w).1 :=
  (auto_packages_registration_upward ("pkg".toList) exTree10w).1
    ["a".toList, "b".toList] ["__init__.py".toList]
    (by decide) (by decide) (by decide) (by decide)

/-- C10 counterexample: in `exTree10` the directory `__pycache__`
contains `__init__.py`, yet `pkg.__pycache__` is not registered as a
sub-package — the claim fails for a directory named `__pycache__`. -/
theorem auto_packages_pycache_init_not_registered :
    (["__pycache__".toList], ["__init__.py".toList]) ∈ walkAux [] exTree10
      ∧ "pkg.__pycache__".toList ∉
          (auto_packages ("pkg".toList) exTree10).1 := by decide

/-- C4 (amended): a directory named `__pycache__` is itself skipped —
the traversal step leaves the discovery state unchanged, so it is never
registered as a sub-package and its direct files are never attributed —
but its subtree is not pruned: descendant directories are still visited
and can be attributed as package data (in `exTree4`, `__pycache__/sub/*`
is attributed to the root package). -/
theorem auto_packages_pycache_only_shallow_skip :
    (∀ (pn : Str) (st : DiscState) (e : WEntry),
        e.1.getLastD pn = "__pycache__".toList → autoStep pn st e = st)
      ∧ (∃ pats,
          ("pkg".toList, pats) ∈ (auto_packages ("pkg".toList) exTree4).2
            ∧ "__pycache__/sub/*".toList ∈ pats) := by
  constructor
  · intro pn st e h
    exact autoStep_pycache st h
  · exact ⟨["__pycache__/sub/*".toList], by decide, by decide⟩

/-- Witness for C4 (amended) at a concrete `__pycache__` entry. -/
theorem auto_packages_pycache_only_shallow_skip_witness :
    autoStep ("pkg".toList)
        (DiscState.mk [] ["pkg".toList] [([], ["*".toList])])
        (["__pycache__".toList], ["x.py".toList])
      = DiscState.mk [] ["pkg".toList] [([], ["*".toList])] :=
  auto_packages_pycache_only_shallow_skip.1 ("pkg".toList)
    (DiscState.mk [] ["pkg".toList] [([], ["*".toList])])
    (["__pycache__".toList], ["x.py".toList]) (by decide)

/-- C4 counterexample: in `exTree4b` the directory `deep` below
`__pycache__` is visited and registered as the sub-package
`pkg.__pycache__.deep`, refuting the claim that no descendant of a
`__pycache__` directory is ever visited or registered. -/
theorem auto_packages_pycache_descendant_registered :
    "pkg.__pycache__.deep".toList ∈
      (auto_packages ("pkg".toList) exTree4b).1 := by decide

/-! ### Lemmas about `build` -/

theorem build_ok (inp : BuildInput) (td : Option Str) (now : Int)
    (mt : Option Int) (fs : List Str)
    (hm : parse_epoch inp.source_date_epoch = .ok mt)
    (hf : find_tracked_files inp = .ok fs) :
    build inp td now =
      (dir_ops inp td
          ++ FsOp.createTruncate (target_path inp td) (gz_mtime mt now)
          :: (fs.map (fun rp => FsOp.addEntry (mk_file_entry inp mt rp))
              ++ (if fs.contains ("setup.py".toList) then []
                  else [FsOp.addEntry (setup_py_entry inp)])
              ++ [FsOp.addEntry (pkg_info_entry inp), FsOp.closeArchive]),
       .ok (target_path inp td)) := by
  unfold build
  rw [hm, hf]

theorem build_vcs_error (inp : BuildInput) (td : Option Str) (now : Int)
    (mt : Option Int) (hm : parse_epoch inp.source_date_epoch = .ok mt)
    (hu : inp.untracked_deleted.filter include_path ≠ []) :
    build inp td now =
      (dir_ops inp td
          ++ [FsOp.createTruncate (target_path inp td) (gz_mtime mt now),
              FsOp.closeArchive],
       .error (.vcs vcs_untracked_msg inp.srcdir)) := by
  have hf : find_tracked_files inp
      = .error (.vcs vcs_untracked_msg inp.srcdir) := by
    unfold find_tracked_files
    rw [if_neg hu]
  unfold build
  rw [hm, hf]

theorem trace_entries_append (a b : List FsOp) :
    trace_entries (a ++ b) = trace_entries a ++ trace_entries b := by
  unfold trace_entries
  rw [List.filterMap_append]

theorem trace_gz_mtimes_append (a b : List FsOp) :
    trace_gz_mtimes (a ++ b) = trace_gz_mtimes a ++ trace_gz_mtimes b := by
  unfold trace_gz_mtimes
  rw [List.filterMap_append]

theorem trace_entries_dir_ops (inp : BuildInput) (td : Option Str) :
    trace_entries (dir_ops inp td) = [] := by
  unfold dir_ops
  by_cases h : inp.dirExists (target_dir_resolved inp td) <;>
    simp [h, trace_entries]

theorem trace_gz_mtimes_dir_ops (inp : BuildInput) (td : Option Str) :
    trace_gz_mtimes (dir_ops inp td) = [] := by
  unfold dir_ops
  by_cases h : inp.dirExists (target_dir_resolved inp td) <;>
    simp [h, trace_gz_mtimes]

theorem trace_entries_file_ops (inp : BuildInput) (mt : Option Int)
    (fs : List Str) :
    trace_entries (fs.map (fun rp => FsOp.addEntry (mk_file_entry inp mt rp)))
      = fs.map (mk_file_entry inp mt) := by
  unfold trace_entries
  induction fs with
  | nil => rfl
  | cons r rs ih => simp [ih]

theorem trace_gz_mtimes_file_ops (inp : BuildInput) (mt : Option Int)
    (fs : List Str) :
    trace_gz_mtimes
        (fs.map (fun rp => FsOp.addEntry (mk_file_entry inp mt rp))) = [] := by
  unfold trace_gz_mtimes
  induction fs with
  | nil => rfl
  | cons r rs ih => simp [ih]

theorem mk_file_entry_mtime (inp : BuildInput) (mt : Option Int) (rp : Str) :
    (mk_file_entry inp mt rp).mtime =
      match mt with
      | some n => n
      | none => (inp.fileMeta rp).mtime := by
  unfold mk_file_entry
  rw [apply_ite TarEntry.mtime]
  cases mt <;> simp [clean_tarinfo, gettarinfo]

theorem mk_file_entry_name (inp : BuildInput) (mt : Option Int) (rp : Str) :
    (mk_file_entry inp mt rp).name = tf_dir inp ++ '/' :: rp := by
  unfold mk_file_entry
  rw [apply_ite TarEntry.name]
  simp [clean_tarinfo, gettarinfo]

/-- C1 (amended): when the VCS collaborator reports an untracked or
deleted file that survives the standard filter (and `SOURCE_DATE_EPOCH`
parses), `build` raises the `VCSError` before any archive member is
written — the trace contains no entry — but the destination file
`<destination>/<name>-<version>.tar.gz` is already created and truncated
when the compressed writer is opened, and the guaranteed close on the
error path flushes an empty archive there; the original claim that the
destination file is neither created nor modified does not hold. -/
theorem build_untracked_error (inp : BuildInput) (td : Option Str)
    (now : Int) (mt : Option Int)
    (hm : parse_epoch inp.source_date_epoch = .ok mt)
    (hu : inp.untracked_deleted.filter include_path ≠ []) :
    (build inp td now).2 = .error (.vcs vcs_untracked_msg inp.srcdir)
      ∧ trace_entries (build inp td now).1 = []
      ∧ (build inp td now).1 =
          dir_ops inp td
            ++ [FsOp.createTruncate (target_path inp td) (gz_mtime mt now),
              FsOp.closeArchive] := by
  rw [build_vcs_error inp td now mt hm hu]
  refine ⟨rfl, ?_, rfl⟩
  rw [trace_entries_append, trace_entries_dir_ops]
  rfl

/-- Witness for C1 (amended) at a concrete input with one untracked
file. -/
theorem build_untracked_error_witness :
    (build { exInput with untracked_deleted := ["junk.txt".toList] } none
          1000).2
        = .error (.vcs vcs_untracked_msg
            ({ exInput with
                untracked_deleted := ["junk.txt".toList] } : BuildInput).srcdir)
      ∧ trace_entries
          (build { exInput with untracked_deleted := ["junk.txt".toList] }
            none 1000).1 = []
      ∧ (build { exInput with untracked_deleted := ["junk.txt".toList] }
            none 1000).1 =
          dir_ops { exInput with untracked_deleted := ["junk.txt".toList] }
              none
            ++ [FsOp.createTruncate
                  (target_path
                    { exInput with untracked_deleted := ["junk.txt".toList] }
                    none) (gz_mtime none 1000),
                FsOp.closeArchive] :=
  build_untracked_error
    { exInput with untracked_deleted := ["junk.txt".toList] } none 1000 none
    (by decide) (by decide)

/-- C1 counterexample: at a concrete input with an untracked file the
build fails with the `VCSError`, yet the trace contains the
create-and-truncate of the destination file (and the close that flushes
an empty archive there), so the destination file is created and
modified, contrary to the claim. -/
theorem build_untracked_creates_file_counterexample :
    (build { exInput with untracked_deleted := ["junk.txt".toList] } none
          1000).2
        = .error (.vcs vcs_untracked_msg (".".toList))
      ∧ FsOp.createTruncate
            (target_path { exInput with
              untracked_deleted := ["junk.txt".toList] } none) 1000
          ∈ (build { exInput with
              untracked_deleted := ["junk.txt".toList] } none 1000).1
      ∧ FsOp.closeArchive
          ∈ (build { exInput with
              untracked_deleted := ["junk.txt".toList] } none 1000).1 := by
  decide

/-- C2 (amended): `build` reads, besides the modelled `BuildInput`, the
wall clock: when `SOURCE_DATE_EPOCH` is absent or empty the gzip header
records `time.time()`.  So determinism holds as claimed only when
`SOURCE_DATE_EPOCH` is set and non-empty — then two invocations on
equal inputs produce identical effect traces, independent of the clock;
when it is absent or empty, the archive members (order, metadata,
contents) and the result are still determined by the inputs, but the
gzip header timestamp varies with the clock. -/
theorem build_deterministic_epoch :
    (∀ (i1 i2 : BuildInput) (td1 td2 : Option Str) (now1 now2 : Int),
        i1 = i2 → td1 = td2 → i1.source_date_epoch ≠ [] →
        build i1 td1 now1 = build i2 td2 now2)
      ∧ (∀ (inp : BuildInput) (td : Option Str) (now1 now2 : Int),
          inp.source_date_epoch = [] →
          trace_entries (build inp td now1).1
              = trace_entries (build inp td now2).1
            ∧ (build inp td now1).2 = (build inp td now2).2) := by
  constructor
  · intro i1 i2 td1 td2 now1 now2 h1 h2 hsde
    subst h1
    subst h2
    unfold build parse_epoch
    rw [if_neg hsde]
    cases hp : py_int? i1.source_date_epoch with
    | none => simp only [hp]
    | some n => simp only [hp, gz_mtime]
  · intro inp td now1 now2 hsde
    have hm : parse_epoch inp.source_date_epoch = .ok none := by
      unfold parse_epoch
      rw [if_pos hsde]
    cases hf : find_tracked_files inp with
    | error e =>
      unfold build
      rw [hm, hf]
      constructor
      · rw [trace_entries_append, trace_entries_append]
        rfl
      · rfl
    | ok fs =>
      unfold build
      rw [hm, hf]
      constructor
      · rw [trace_entries_append, trace_entries_append]
        rfl
      · rfl

/-- Witness for C2 (amended): with `SOURCE_DATE_EPOCH=123`, builds at
wall-clock times 1000 and 2000 coincide. -/
theorem build_deterministic_epoch_witness :
    build { exInput with source_date_epoch := "123".toList } none 1000
      = build { exInput with source_date_epoch := "123".toList } none 2000 :=
  build_deterministic_epoch.1
    { exInput with source_date_epoch := "123".toList }
    { exInput with source_date_epoch := "123".toList }
    none none 1000 2000 rfl rfl (by decide)

set_option maxRecDepth 8192 in
/-- C2 counterexample: with `SOURCE_DATE_EPOCH` absent (one fixed value
covered by the claim), two invocations of `build` on the same source
tree and metadata at wall-clock times 1000 and 2000 produce different
archives — the gzip headers record different timestamps — refuting
byte-identity as stated. -/
theorem build_clock_counterexample :
    exInput.source_date_epoch = []
      ∧ build exInput none 1000 ≠ build exInput none 2000
      ∧ trace_gz_mtimes (build exInput none 1000).1 = [1000]
      ∧ trace_gz_mtimes (build exInput none 2000).1 = [2000] := by
  refine ⟨rfl, ?_, ?_, ?_⟩
  · intro h
    have h1 : trace_gz_mtimes (build exInput none 1000).1 = [1000] := by
      decide
    rw [h] at h1
    have h2 : trace_gz_mtimes (build exInput none 2000).1 = [2000] := by
      decide
    rw [h1] at h2
    exact absurd h2 (by decide)
  · decide
  · decide

/-- C3 (amended): when `SOURCE_DATE_EPOCH` is set, non-empty and a valid
integer it is parsed and applied as the mtime of every tracked-file
entry and as the gzip wrapper's timestamp; when it is absent or empty no
override exists — the wrapper gets no explicit timestamp and file
entries keep their on-disk mtime; but the synthesized `setup.py` and
`PKG-INFO` entries always carry mtime 0 (the fresh `TarInfo` default),
never the parsed value, contrary to the original claim. -/
theorem build_mtime_stamping (inp : BuildInput) (td : Option Str)
    (now : Int) (mt : Option Int) (fs : List Str)
    (hm : parse_epoch inp.source_date_epoch = .ok mt)
    (hf : find_tracked_files inp = .ok fs) :
    trace_gz_mtimes (build inp td now).1 = [gz_mtime mt now]
      ∧ (∀ n, mt = some n → gz_mtime mt now = n)
      ∧ (mt = none → gz_mtime mt now = now)
      ∧ trace_entries (build inp td now).1 =
          fs.map (mk_file_entry inp mt)
            ++ (if fs.contains ("setup.py".toList) then []
                else [setup_py_entry inp])
            ++ [pkg_info_entry inp]
      ∧ (∀ rp n, mt = some n → (mk_file_entry inp mt rp).mtime = n)
      ∧ (mt = none →
          ∀ rp, (mk_file_entry inp mt rp).mtime = (inp.fileMeta rp).mtime)
      ∧ (setup_py_entry inp).mtime = 0
      ∧ (pkg_info_entry inp).mtime = 0 := by
  rw [build_ok inp td now mt fs hm hf]
  refine ⟨?_, ?_, ?_, ?_, ?_, ?_, rfl, rfl⟩
  · rw [trace_gz_mtimes_append, trace_gz_mtimes_dir_ops]
    show trace_gz_mtimes
        (FsOp.createTruncate (target_path inp td) (gz_mtime mt now)
          :: (fs.map (fun rp => FsOp.addEntry (mk_file_entry inp mt rp))
              ++ (if fs.contains ("setup.py".toList) then []
                  else [FsOp.addEntry (setup_py_entry inp)])
              ++ [FsOp.addEntry (pkg_info_entry inp), FsOp.closeArchive]))
      = [gz_mtime mt now]
    unfold trace_gz_mtimes
    rw [List.filterMap_cons]
    simp only []
    rw [← trace_gz_mtimes]
    rw [trace_gz_mtimes_append, trace_gz_mtimes_append,
      trace_gz_mtimes_file_ops]
    by_cases h : fs.contains ("setup.py".toList) <;>
      simp [h, trace_gz_mtimes]
  · intro n hmt
    rw [hmt]
    rfl
  · intro hmt
    rw [hmt]
    rfl
  · rw [trace_entries_append, trace_entries_dir_ops]
    show trace_entries
        (FsOp.createTruncate (target_path inp td) (gz_mtime mt now)
          :: (fs.map (fun rp => FsOp.addEntry (mk_file_entry inp mt rp))
              ++ (if fs.contains ("setup.py".toList) then []
                  else [FsOp.addEntry (setup_py_entry inp)])
              ++ [FsOp.addEntry (pkg_info_entry inp),
                  FsOp.closeArchive])) = _
    unfold trace_entries
    rw [List.filterMap_cons]
    simp only []
    rw [← trace_entries]
    rw [trace_entries_append, trace_entries_append, trace_entries_file_ops]
    by_cases h : ("setup.py".toList) ∈ fs
    · have h' : ['s', 'e', 't', 'u', 'p', '.', 'p', 'y'] ∈ fs := h
      simp [h', trace_entries]
    · have h' : ['s', 'e', 't', 'u', 'p', '.', 'p', 'y'] ∉ fs := h
      simp [h', trace_entries]
  · intro rp n hmt
    rw [mk_file_entry_mtime, hmt]
  · intro hmt rp
    rw [mk_file_entry_mtime, hmt]

/-- Witness for C3 (amended) at a concrete input with
`SOURCE_DATE_EPOCH=123`. -/
theorem build_mtime_stamping_witness :
    trace_gz_mtimes
        (build { exInput with source_date_epoch := "123".toList } none 1000).1
        = [gz_mtime (some 123) 1000]
      ∧ (∀ n, (some 123 : Option Int) = some n →
          gz_mtime (some 123) 1000 = n)
      ∧ ((some 123 : Option Int) = none → gz_mtime (some 123) 1000 = 1000)
      ∧ trace_entries
          (build { exInput with source_date_epoch := "123".toList } none
            1000).1 =
          (["foo.py".toList]).map
              (mk_file_entry { exInput with source_date_epoch := "123".toList }
                (some 123))
            ++ (if (["foo.py".toList]).contains ("setup.py".toList) then []
                else [setup_py_entry
                  { exInput with source_date_epoch := "123".toList }])
            ++ [pkg_info_entry
                  { exInput with source_date_epoch := "123".toList }]
      ∧ (∀ rp n, (some 123 : Option Int) = some n →
          (mk_file_entry { exInput with source_date_epoch := "123".toList }
              (some 123) rp).mtime = n)
      ∧ ((some 123 : Option Int) = none →
          ∀ rp, (mk_file_entry
              { exInput with source_date_epoch := "123".toList }
              (some 123) rp).mtime =
            (({ exInput with
                source_date_epoch := "123".toList } : BuildInput).fileMeta
              rp).mtime)
      ∧ (setup_py_entry
            { exInput with source_date_epoch := "123".toList }).mtime = 0
      ∧ (pkg_info_entry
            { exInput with source_date_epoch := "123".toList }).mtime = 0 :=
  build_mtime_stamping { exInput with source_date_epoch := "123".toList }
    none 1000 (some 123) ["foo.py".toList] (by decide) (by decide)

set_option maxRecDepth 8192 in
/-- C3 counterexample: with `SOURCE_DATE_EPOCH=123` (parsed to 123) and
no tracked files, the archive's two entries are the synthesized
`setup.py` and `PKG-INFO`, whose mtimes are `[0, 0]` — not every entry
carries the parsed timestamp, contrary to the claim. -/
theorem build_mtime_counterexample :
    parse_epoch ("123".toList) = .ok (some 123)
      ∧ (trace_entries
            (build { exInput with source_date_epoch := "123".toList, tracked := [] } none 1000).1).map TarEntry.mtime = [0, 0]
      ∧ ¬ (∀ e ∈ trace_entries
            (build { exInput with source_date_epoch := "123".toList, tracked := [] } none 1000).1, e.mtime = (123 : Int)) := by
  refine ⟨by decide, by decide, ?_⟩
  intro hall
  have hmem : setup_py_entry
        { exInput with source_date_epoch := "123".toList, tracked := [] }
      ∈ trace_entries
        (build { exInput with source_date_epoch := "123".toList, tracked := [] }
          none 1000).1 := by decide
  have hml := hall _ hmem
  have h0 : (setup_py_entry
      { exInput with source_date_epoch := "123".toList, tracked := [] }).mtime
      = 0 := by decide
  rw [h0] at hml
  exact absurd hml (by decide)

/-- C9 (amended): on every successful invocation, `build` returns the
path `<destination>/<name>-<version>.tar.gz` of the archive it opened
and wrote; that path is absolute exactly when the resolved destination
directory is absolute — in particular a relative destination yields a
relative, not absolute, returned path. -/
theorem build_returns_target (inp : BuildInput) (td : Option Str)
    (now : Int) (mt : Option Int) (fs : List Str)
    (hm : parse_epoch inp.source_date_epoch = .ok mt)
    (hf : find_tracked_files inp = .ok fs) :
    (build inp td now).2 = .ok (target_path inp td)
      ∧ FsOp.createTruncate (target_path inp td) (gz_mtime mt now)
          ∈ (build inp td now).1
      ∧ FsOp.closeArchive ∈ (build inp td now).1
      ∧ (target_dir_resolved inp td ≠ [] →
          path_is_absolute (target_path inp td)
            = path_is_absolute (target_dir_resolved inp td)) := by
  rw [build_ok inp td now mt fs hm hf]
  refine ⟨rfl, ?_, ?_, ?_⟩
  · apply List.mem_append_right
    exact List.mem_cons_self _ _
  · apply List.mem_append_right
    apply List.mem_cons_of_mem
    apply List.mem_append_right
    simp
  · intro hne
    unfold target_path path_is_absolute
    cases hd : target_dir_resolved inp td with
    | nil => exact absurd hd hne
    | cons c cs => simp

/-- Witness for C9 (amended) at a concrete relative destination. -/
theorem build_returns_target_witness :
    (build exInput (some ("dist".toList)) 1000).2
        = .ok (target_path exInput (some ("dist".toList)))
      ∧ FsOp.createTruncate (target_path exInput (some ("dist".toList)))
            (gz_mtime none 1000)
          ∈ (build exInput (some ("dist".toList)) 1000).1
      ∧ FsOp.closeArchive ∈ (build exInput (some ("dist".toList)) 1000).1
      ∧ (target_dir_resolved exInput (some ("dist".toList)) ≠ [] →
          path_is_absolute (target_path exInput (some ("dist".toList)))
            = path_is_absolute
                (target_dir_resolved exInput (some ("dist".toList)))) :=
  build_returns_target exInput (some ("dist".toList)) 1000 none
    ["foo.py".toList] (by decide) (by decide)

set_option maxRecDepth 8192 in
/-- C9 counterexample: with the relative destination directory `dist`,
`build` succeeds and returns `dist/foo-0.1.tar.gz`, which is not an
absolute path — the claim that the returned path is always absolute
fails. -/
theorem build_relative_path_counterexample :
    (build exInput (some ("dist".toList)) 1000).2
        = .ok ("dist/foo-0.1.tar.gz".toList)
      ∧ path_is_absolute ("dist/foo-0.1.tar.gz".toList) = false := by
  constructor
  · rw [build_ok exInput (some ("dist".toList)) 1000 none ["foo.py".toList]
      (by decide) (by decide)]
    decide
  · decide

/-- C5 (amended): the tracked-file filter excludes exactly the paths
that start with the top-level segment `dist/`, contain the substring
`/__pycache__` (a bytecode-cache segment preceded by a separator; a
`__pycache__` as the first path component is NOT excluded), or end in
`.pyc`; the surviving tracked paths are sorted lexicographically, that
sorted list is the build's file list, and the archive's file entries
appear in exactly that order (followed by the synthesized entries). -/
theorem build_filter_and_order (inp : BuildInput) (td : Option Str)
    (now : Int) (mt : Option Int)
    (hm : parse_epoch inp.source_date_epoch = .ok mt)
    (hu : inp.untracked_deleted.filter include_path = []) :
    (∀ p, include_path p =
        !(("dist/".toList).isPrefixOf p || hasSub ("/__pycache__".toList) p
          || (".pyc".toList).isSuffixOf p))
      ∧ find_tracked_files inp
          = .ok (sortStr (inp.tracked.filter include_path))
      ∧ List.Sorted (fun a b : Str => a ≤ b)
          (sortStr (inp.tracked.filter include_path))
      ∧ (trace_entries (build inp td now).1).map TarEntry.name =
          (sortStr (inp.tracked.filter include_path)).map
              (fun rp => tf_dir inp ++ '/' :: rp)
            ++ (if (sortStr (inp.tracked.filter include_path)).contains
                    ("setup.py".toList) then []
                else [tf_dir inp ++ "/setup.py".toList])
            ++ [tf_dir inp ++ "/PKG-INFO".toList] := by
  have hf : find_tracked_files inp
      = .ok (sortStr (inp.tracked.filter include_path)) := by
    unfold find_tracked_files
    rw [if_pos hu]
  refine ⟨fun p => rfl, hf, ?_, ?_⟩
  · exact List.sorted_insertionSort _ _
  · rw [build_ok inp td now mt (sortStr (inp.tracked.filter include_path))
      hm hf]
    rw [trace_entries_append, trace_entries_dir_ops]
    show (trace_entries (FsOp.createTruncate (target_path inp td)
      (gz_mtime mt now)
      :: ((sortStr (inp.tracked.filter include_path)).map
            (fun rp => FsOp.addEntry (mk_file_entry inp mt rp))
          ++ (if (sortStr (inp.tracked.filter include_path)).contains
                  ("setup.py".toList) then []
              else [FsOp.addEntry (setup_py_entry inp)])
          ++ [FsOp.addEntry (pkg_info_entry inp),
              FsOp.closeArchive]))).map TarEntry.name = _
    unfold trace_entries
    rw [List.filterMap_cons]
    simp only []
    rw [← trace_entries]
    rw [trace_entries_append, trace_entries_append, trace_entries_file_ops]
    rw [List.map_append, List.map_append, List.map_map]
    have hfiles : (sortStr (inp.tracked.filter include_path)).map
          (TarEntry.name ∘ mk_file_entry inp mt)
        = (sortStr (inp.tracked.filter include_path)).map
            (fun rp => tf_dir inp ++ '/' :: rp) :=
      List.map_congr_left (fun rp _ => mk_file_entry_name inp mt rp)
    have hsetup : (trace_entries
          (if (sortStr (inp.tracked.filter include_path)).contains
              ("setup.py".toList) then []
           else [FsOp.addEntry (setup_py_entry inp)])).map TarEntry.name
        = (if (sortStr (inp.tracked.filter include_path)).contains
              ("setup.py".toList) then []
           else [tf_dir inp ++ "/setup.py".toList]) := by
      cases h : (sortStr (inp.tracked.filter include_path)).contains
          ("setup.py".toList) <;>
        simp [h, trace_entries, setup_py_entry]
    have hpkg : (trace_entries
          [FsOp.addEntry (pkg_info_entry inp), FsOp.closeArchive]).map
            TarEntry.name
        = [tf_dir inp ++ "/PKG-INFO".toList] := by
      simp [trace_entries, pkg_info_entry]
    rw [hfiles, hsetup, hpkg]

/-- Witness for C5 (amended) at the concrete clean input. -/
theorem build_filter_and_order_witness :
    (∀ p, include_path p =
        !(("dist/".toList).isPrefixOf p || hasSub ("/__pycache__".toList) p
          || (".pyc".toList).isSuffixOf p))
      ∧ find_tracked_files exInput
          = .ok (sortStr (exInput.tracked.filter include_path))
      ∧ List.Sorted (fun a b : Str => a ≤ b)
          (sortStr (exInput.tracked.filter include_path))
      ∧ (trace_entries (build exInput none 1000).1).map TarEntry.name =
          (sortStr (exInput.tracked.filter include_path)).map
              (fun rp => tf_dir exInput ++ '/' :: rp)
            ++ (if (sortStr (exInput.tracked.filter include_path)).contains
                    ("setup.py".toList) then []
                else [tf_dir exInput ++ "/setup.py".toList])
            ++ [tf_dir exInput ++ "/PKG-INFO".toList] :=
  build_filter_and_order exInput none 1000 none (by decide) (by decide)

set_option maxRecDepth 8192 in
/-- C5 counterexample: the tracked path `__pycache__/x.txt` has the
bytecode-cache segment as its first path component, yet it survives the
filter and its entry appears in the archive — the claim that the filter
excludes such a path, "including as the first path component", fails. -/
theorem include_path_pycache_top_counterexample :
    include_path ("__pycache__/x.txt".toList) = true
      ∧ ("foo-0.1/__pycache__/x.txt".toList) ∈
          (trace_entries
            (build { exInput with tracked := ["__pycache__/x.txt".toList] }
              none 1000).1).map TarEntry.name := by
  constructor
  · decide
  · decide
